import Mathlib

/-!
# Verification of the ReqGen text-shaping core

Shallow embedding of the orchestration / text-shaping layer of the ReqGen
backend (`document_generator.py`, `meeting_summarizer.py`) and proofs about
the frozen specification claims.

Modelling conventions:
* Python `str` is modelled as Lean `String` (a list of unicode code points);
  `str.split()` / `' '.join` / slicing are re-implemented character-exactly.
* Python `int(x * r)` on a non-negative value with a decimal ratio literal is
  modelled as exact rational arithmetic with floor (`Nat` multiplication and
  division); the invariants proved below are insensitive to the final-ulp
  rounding of IEEE doubles because they hold for arbitrary pre-clamp values.
* The external generation model is an oracle parameter
  `gen : String → Nat → Nat → Option String` (prompt, max_length, min_length);
  `none` models a raised exception of the collaborator call.
* Whitespace is the ASCII whitespace set recognised by `str.split()`.
-/

set_option maxHeartbeats 1000000

namespace ReqGen

/-- ASCII whitespace, as recognised by Python `str.split()` / `str.strip()`. -/
def isSpaceChar (c : Char) : Bool :=
  c = ' ' || c = '\t' || c = '\n' || c = '\x0d' || c = '\x0b' || c = '\x0c'

/-- Worker for `str.split()`: splits on whitespace runs, dropping empties.
`acc` holds the reversed current word. -/
def wordsAux : List Char → List Char → List (List Char)
  | [], acc => if acc = [] then [] else [acc.reverse]
  | c :: rest, acc =>
      if isSpaceChar c then
        (if acc = [] then wordsAux rest [] else acc.reverse :: wordsAux rest [])
      else wordsAux rest (c :: acc)

/-- Python `text.split()` (no argument): whitespace-run splitting. -/
def pySplit (s : String) : List String :=
  (wordsAux s.data []).map (fun w => { data := w })

/-- Python `' '.join(xs)`. -/
def joinSp : List String → String
  | [] => ""
  | [x] => x
  | x :: y :: rest => x ++ " " ++ joinSp (y :: rest)

/-- Python slicing `text[:n]` (by code points). -/
def strTake (s : String) (n : Nat) : String := { data := s.data.take n }

/-- Left strip of ASCII whitespace. -/
def lstripChars (l : List Char) : List Char := l.dropWhile isSpaceChar

/-- Right strip of ASCII whitespace. -/
def rstripChars (l : List Char) : List Char :=
  (l.reverse.dropWhile isSpaceChar).reverse

/-- Strip of ASCII whitespace at both ends, at the character level. -/
def stripChars (l : List Char) : List Char := lstripChars (rstripChars l)

/-- Python `text.strip()`. -/
def pyStrip (s : String) : String := { data := stripChars s.data }

/-!
## AdaptiveLengthPolicy
(`SmartT5LargeDocumentGenerator.calculate_adaptive_summary_length`,
`document_generator.py` lines 118-180.)

Ratios are carried as exact rationals: `base_pm` is the strategy base ratio in
per-mille (0.12 ↦ 120), `eff_pm100k` the effective ratio in parts per 100000.
-/

/-- One entry of the `strategies` table. -/
structure StrategyCfg where
  base_pm : Nat
  min_words : Nat
  max_words : Nat
  descr : String
  deriving Repr, DecidableEq

/-- `strategies.get(strategy, strategies['balanced'])`: the six known
strategies, any other name falls back to `balanced`. -/
def strategyCfg (s : String) : StrategyCfg :=
  if s = "ultra_concise" then ⟨120, 12, 60, "Single sentence summaries"⟩
  else if s = "concise" then ⟨200, 20, 100, "Brief, punchy summaries"⟩
  else if s = "balanced" then ⟨300, 30, 180, "Balanced detail and brevity"⟩
  else if s = "detailed" then ⟨450, 50, 300, "Comprehensive coverage"⟩
  else if s = "comprehensive" then ⟨600, 80, 450, "Extensive detail"⟩
  else if s = "hybrid" then ⟨525, 65, 375, "Hybrid: detailed + comprehensive"⟩
  else ⟨300, 30, 180, "Balanced detail and brevity"⟩

/-- The dictionary returned by `calculate_adaptive_summary_length`. -/
structure SummaryConfig where
  max_length : Nat
  min_length : Nat
  max_words : Nat
  min_words : Nat
  eff_pm100k : Nat
  strategy : String
  descr : String
  deriving Repr, DecidableEq

/-- `calculate_adaptive_summary_length(word_count, strategy)`: band selection
followed by the four clamping steps and the ×1.5 token derivation. -/
def calculateAdaptiveSummaryLength (wordCount : Nat) (strategy : String) :
    SummaryConfig :=
  let cfg := strategyCfg strategy
  let raw : Nat × Nat × Nat :=
    if wordCount < 40 then
      (max cfg.min_words (wordCount * 85 / 100), max 8 (wordCount * 50 / 100), 85000)
    else if wordCount < 120 then
      (max cfg.min_words (wordCount * 65 / 100), max 12 (wordCount * 35 / 100), 65000)
    else if wordCount < 250 then
      (wordCount * 50 / 100, wordCount * 25 / 100, 50000)
    else if wordCount < 600 then
      (wordCount * cfg.base_pm / 1000, wordCount * (cfg.base_pm * 45) / 100000,
        cfg.base_pm * 100)
    else if wordCount < 1500 then
      (wordCount * (cfg.base_pm * 95) / 100000, wordCount * (cfg.base_pm * 40) / 100000,
        cfg.base_pm * 95)
    else if wordCount < 4000 then
      (wordCount * (cfg.base_pm * 85) / 100000, wordCount * (cfg.base_pm * 35) / 100000,
        cfg.base_pm * 85)
    else
      (wordCount * (cfg.base_pm * 75) / 100000, wordCount * (cfg.base_pm * 30) / 100000,
        cfg.base_pm * 75)
  let mw := max (min raw.1 cfg.max_words) cfg.min_words
  let minw := max (min raw.2.1 (mw - 8)) 8
  { max_length := mw * 3 / 2
    min_length := minw * 3 / 2
    max_words := mw
    min_words := minw
    eff_pm100k := raw.2.2
    strategy := strategy
    descr := cfg.descr }

/-!
## Fixed-size word chunking and `_summarize_long_text`
(`document_generator.py` lines 222-269.)
-/

/-- `[' '.join(words[i:i+400]) for i in range(0, len(words), 400)]`, at the
word-list level: consecutive groups of 400 words. -/
def chunks400 (words : List String) : List (List String) :=
  if words = [] then [] else words.take 400 :: chunks400 (words.drop 400)
termination_by words.length
decreasing_by
  simp only [List.length_drop]
  have : words.length ≠ 0 := by
    simpa [List.length_eq_zero] using (by assumption : ¬ words = [])
  omega

/-- The per-chunk loop of `_summarize_long_text`: chunks with fewer than 25
words are skipped, a failed generation call (`none`) is skipped, successes are
collected in order. -/
def chunkSummaries (f : String → Option String) : List String → List String
  | [] => []
  | c :: rest =>
      if (pySplit c).length < 25 then chunkSummaries f rest
      else
        match f c with
        | some s => s :: chunkSummaries f rest
        | none => chunkSummaries f rest

/-- The generation call made for one chunk: a chunk-local `SummaryConfig` is
recomputed from the chunk's own word count and the top-level strategy, and its
token bounds are passed to the generator. -/
def sltGen (gen : String → Nat → Nat → Option String) (cfg : SummaryConfig)
    (c : String) : Option String :=
  gen c (calculateAdaptiveSummaryLength (pySplit c).length cfg.strategy).max_length
    (calculateAdaptiveSummaryLength (pySplit c).length cfg.strategy).min_length

/-- `_summarize_long_text(text, summary_config, ...)`: fixed-size chunking,
per-chunk generation with skip-on-failure, `text[:500]` fallback when no chunk
produced a summary, and a consolidation call (falling back to the joined text
on failure) when more than one chunk contributed and the combination is still
over budget. `quality` and `custom_instruction` are forwarded unchanged to the
generator and are folded into the oracle `gen`. -/
def summarizeLongText (gen : String → Nat → Nat → Option String)
    (cfg : SummaryConfig) (text : String) : String :=
  let chunks := (chunks400 (pySplit text)).map joinSp
  let sums := chunkSummaries (sltGen gen cfg) chunks
  if sums = [] then strTake text 500
  else
    let combined := joinSp sums
    if 1 < chunks.length ∧ cfg.max_words < (pySplit combined).length then
      match gen combined cfg.max_length cfg.min_length with
      | some final => final
      | none => combined
    else combined

/-!
## Meeting summarizer text shaping (`meeting_summarizer.py`)

`_manual_clean_repetition` (lines 100-115), `_clean_hallucinations`
(lines 215-280) and `_chunk_intelligently` (lines 282-328).

Note: several regex/separator literals in that file carry doubled
backslashes (`re.sub(r'\\s+', ...)`, `text.split('\\n\\n')`,
`re.split(r'(?<=[.!?])\\s+', ...)`): they match a literal backslash (resp.
the four characters `\n\n`), not whitespace. The embedding reproduces those
literals exactly.
-/

/-- Python generic `sep.join(xs)`. -/
def pyJoin (sep : String) : List String → String
  | [] => ""
  | [x] => x
  | x :: y :: rest => x ++ sep ++ pyJoin sep (y :: rest)

/-- Sentence terminators `.`, `!`, `?`. -/
def isTermChar (c : Char) : Bool := c = '.' || c = '!' || c = '?'

/-- Whether the head of a reversed accumulator (the previously consumed
character) is a sentence terminator. -/
def headIsTerm (l : List Char) : Bool :=
  match l.head? with
  | some t => isTermChar t
  | none => false

/-- Worker for `re.split(r'(?<=[.!?])\s+', text)` (the correct regex of
`_manual_clean_repetition`): a whitespace run preceded by a terminator is a
separator. First argument: currently inside a separator run. -/
def splitSentGo : Bool → List Char → List Char → List (List Char)
  | true, _, [] => [[]]
  | false, acc, [] => [acc.reverse]
  | true, acc, c :: rest =>
      if isSpaceChar c then splitSentGo true acc rest
      else splitSentGo false [c] rest
  | false, acc, c :: rest =>
      if isSpaceChar c && headIsTerm acc then
        acc.reverse :: splitSentGo true [] rest
      else splitSentGo false (c :: acc) rest

/-- `re.split(r'(?<=[.!?])\s+', text)`. -/
def splitSentences (s : String) : List String :=
  (splitSentGo false [] s.data).map (fun l => { data := l })

/-- The `for i, sent in enumerate(sentences)` loop of
`_manual_clean_repetition`: stop (break) at the first index `i > 2` whose
sentence equals the two preceding ones in the original list. -/
def cleanRepGo (orig : List String) : List String → Nat → List String
  | [], _ => []
  | sent :: rest, i =>
      if 2 < i ∧ orig[i-1]? = some sent ∧ orig[i-2]? = some sent then []
      else sent :: cleanRepGo orig rest (i + 1)

/-- `_manual_clean_repetition(text)`. -/
def manualCleanRepetition (text : String) : String :=
  let sentences := splitSentences text
  if sentences = [] then text
  else joinSp (cleanRepGo sentences sentences 0)

/-- The `stop_triggers` list of `_clean_hallucinations`, in source order. -/
def stopTriggers : List String :=
  ["## Exercise", "##Exercise", "Exercise 1:", "Exercise 2:", "## Question",
   "##Question", "Question:", "Answer:", "A)", "B)", "C)", "D)", "##Your task",
   "##", "**Rewrite", "Rewrite", "Your task", "after that", "create some",
   "usecase", "Instruction:", "Task:", "Note:", "Example:", "Following:",
   "Step 1:", "First,", "Here is", "Here's", "What were", "Why is it",
   "How do you"]

/-- Worker for Python `str.find`: lowest offset of `n` in the remaining text,
`i` being the offset of the current position. -/
def pyFindAux (n : List Char) : List Char → Nat → Option Nat
  | [], i => if n.isPrefixOf ([] : List Char) then some i else none
  | c :: t, i => if n.isPrefixOf (c :: t) then some i else pyFindAux n t (i + 1)

/-- Python `hay.find(needle)` (`none` for `-1`). -/
def pyFind (hay needle : String) : Option Nat := pyFindAux needle.data hay.data 0

/-- One iteration of the trigger loop: a trigger whose `find` position is
strictly smaller than the current earliest replaces it. -/
def scanStep (text : String) (st : Nat × Option String) (trig : String) :
    Nat × Option String :=
  match pyFind text trig with
  | some p => if p < st.1 then (p, some trig) else st
  | none => st

/-- The trigger scan of `_clean_hallucinations`, starting from
`(len(text), None)`. -/
def scanTriggers (text : String) : Nat × Option String :=
  stopTriggers.foldl (scanStep text) (text.length, none)

/-- `g` occurs in `text` at character offset `p`. -/
def triggerAt (text g : String) (p : Nat) : Prop :=
  g.data.isPrefixOf (text.data.drop p) = true

/-- Python `needle in hay`. -/
def strContainsB (hay needle : String) : Bool := (pyFind hay needle).isSome

/-- The truncation step: if a trigger was found, keep the prefix strictly
before the earliest trigger offset, stripped. -/
def cutTriggers (text : String) : String :=
  match (scanTriggers text).2 with
  | some _ => pyStrip (strTake text (scanTriggers text).1)
  | none => text

/-- Worker for `re.split(r'[.!?]+', text)`: runs of terminators are
separators; empty segments are kept. First argument: inside a run. -/
def splitTermGo : Bool → List Char → List Char → List (List Char)
  | false, acc, [] => [acc.reverse]
  | true, _, [] => [[]]
  | false, acc, c :: rest =>
      if isTermChar c then acc.reverse :: splitTermGo true [] rest
      else splitTermGo false (c :: acc) rest
  | true, acc, c :: rest =>
      if isTermChar c then splitTermGo true acc rest
      else splitTermGo false [c] rest

/-- `re.split(r'[.!?]+', text)`. -/
def splitTermRuns (s : String) : List String :=
  (splitTermGo false [] s.data).map (fun l => { data := l })

/-- The incomplete-trailing-sentence step of `_clean_hallucinations`:
if the text is nonempty and does not end in `.`/`!`/`?`, split on terminator
runs and, when more than one part results, drop the last part and rejoin the
rest with `.`, appending a final `.`. -/
def dropIncomplete (text : String) : String :=
  if text.data = [] then text
  else if (match text.data.getLast? with
      | some c => isTermChar c
      | none => false) then text
  else
    let sentences := splitTermRuns text
    if 1 < sentences.length then pyJoin "." sentences.dropLast ++ "." else text

/-- Worker for `re.sub(r'\\s+', ' ', text)`: the pattern matches a literal
backslash followed by a run of `s` characters (NOT whitespace — the doubled
backslash in the source raw string escapes the backslash itself). First
argument: currently swallowing the `s`-run of a match. -/
def subBSGo : Bool → List Char → List Char
  | _, [] => []
  | inRun, c :: rest =>
      if inRun ∧ c = 's' then subBSGo true rest
      else if c = '\\' ∧ rest.head? = some 's' then ' ' :: subBSGo true rest
      else c :: subBSGo false rest

/-- `re.sub(r'\\s+', ' ', text).strip()`, the final step of
`_clean_hallucinations`. -/
def cleanWS (text : String) : String := pyStrip { data := subBSGo false text.data }

/-- Whether the broken cleanup pattern `\\s+` has a match: a literal
backslash immediately followed by `s`. -/
def hasBS : List Char → Bool
  | [] => false
  | c :: rest => (c = '\\' && rest.head? = some 's') || hasBS rest

/-- Structural invariant of `_clean_hallucinations` output: empty, or ending
in a sentence terminator, or containing no terminator at all. -/
def endsOk (s : String) : Prop :=
  s.data = [] ∨ (∃ c, s.data.getLast? = some c ∧ isTermChar c = true) ∨
    (∀ c ∈ s.data, isTermChar c = false)

/-- `_clean_hallucinations(text)`: trigger cut, incomplete-sentence drop,
whitespace-cleanup step. -/
def cleanHallucinations (text : String) : String :=
  cleanWS (dropIncomplete (cutTriggers text))

/-- Worker for `text.split('\\n\\n')`: the separator is the literal
four-character sequence backslash, `n`, backslash, `n`. -/
def splitOnBBGo : List Char → List Char → List (List Char)
  | acc, [] => [acc.reverse]
  | acc, '\\' :: 'n' :: '\\' :: 'n' :: rest => acc.reverse :: splitOnBBGo [] rest
  | acc, c :: rest => splitOnBBGo (c :: acc) rest

/-- `text.split('\\n\\n')` (literal backslash-n backslash-n separator). -/
def splitLitBB (s : String) : List String :=
  (splitOnBBGo [] s.data).map (fun l => { data := l })

/-- Worker for `re.split(r'(?<=[.!?])\\s+', c)` (the broken fallback of
`_chunk_intelligently`): the separator is a literal backslash followed by a
run of `s` characters, preceded by a terminator. -/
def splitSentBrokenGo : Bool → List Char → List Char → List (List Char)
  | true, _, [] => [[]]
  | false, acc, [] => [acc.reverse]
  | true, acc, c :: rest =>
      if c = 's' then splitSentBrokenGo true acc rest
      else splitSentBrokenGo false [c] rest
  | false, acc, c :: rest =>
      if (c = '\\' : Bool) && rest.head? = some 's' && headIsTerm acc then
        acc.reverse :: splitSentBrokenGo true [] rest
      else splitSentBrokenGo false (c :: acc) rest

/-- `re.split(r'(?<=[.!?])\\s+', c)`. -/
def splitSentBroken (s : String) : List String :=
  (splitSentBrokenGo false [] s.data).map (fun l => { data := l })

/-- The paragraph-accumulation loop of `_chunk_intelligently` (`cur` is the
reversed `current_chunk`). -/
def chunkParasGo (maxLength : Nat) : List String → List String → Nat → List String
  | [], cur, _ => if cur = [] then [] else [pyJoin "\\n\\n" cur.reverse]
  | para :: rest, cur, curLen =>
      if maxLength < curLen + (pySplit para).length ∧ cur ≠ [] then
        pyJoin "\\n\\n" cur.reverse ::
          chunkParasGo maxLength rest [para] (pySplit para).length
      else chunkParasGo maxLength rest (para :: cur) (curLen + (pySplit para).length)

/-- The sentence-accumulation fallback loop of `_chunk_intelligently`. -/
def chunkSentsGo (maxLength : Nat) : List String → List String → Nat → List String
  | [], cur, _ => if cur = [] then [] else [joinSp cur.reverse]
  | sent :: rest, cur, curLen =>
      if maxLength < curLen + (pySplit sent).length ∧ cur ≠ [] then
        joinSp cur.reverse ::
          chunkSentsGo maxLength rest [sent] (pySplit sent).length
      else chunkSentsGo maxLength rest (sent :: cur) (curLen + (pySplit sent).length)

/-- `_chunk_intelligently(text, max_length)`. -/
def chunkIntelligently (text : String) (maxLength : Nat) : List String :=
  let paragraphs := splitLitBB text
  let chunks := chunkParasGo maxLength paragraphs [] 0
  chunks.flatMap (fun c =>
    if maxLength < (pySplit c).length then
      chunkSentsGo maxLength (splitSentBroken c) [] 0
    else [c])

/-!
## StructuredInfoExtractor and document generation
(`document_generator.py`: `extract_structured_info` lines 271-310,
`generate_brd` lines 312-546, `generate_document` lines 820-857.)
-/

/-- Python `sentence.lower()` (ASCII keywords only are tested). -/
def pyLower (s : String) : String := { data := s.data.map Char.toLower }

/-- The nine semantic buckets. -/
structure StructuredInfo where
  requirements : List String
  decisions : List String
  action_items : List String
  timeline : List String
  budget : List String
  risks : List String
  technical : List String
  deliverables : List String
  stakeholders : List String
  deriving Repr, DecidableEq

/-- All buckets empty. -/
def emptyInfo : StructuredInfo := ⟨[], [], [], [], [], [], [], [], []⟩

/-- The nine keyword tables of `extract_structured_info`, in source order. -/
def kwRequirements : List String :=
  ["require", "need", "must", "should", "shall", "expect"]
def kwDecisions : List String :=
  ["decide", "agreed", "approved", "confirmed", "finalized"]
def kwActionItems : List String :=
  ["will", "task", "action", "assign", "responsible", "owner"]
def kwTimeline : List String :=
  ["deadline", "timeline", "date", "week", "month", "schedule", "due"]
def kwBudget : List String :=
  ["cost", "budget", "price", "payment", "fund", "expense", "$", "rs", "rupee",
   "inr"]
def kwRisks : List String :=
  ["risk", "concern", "issue", "challenge", "problem", "blocker"]
def kwTechnical : List String :=
  ["technical", "technology", "system", "platform", "api", "database",
   "infrastructure"]
def kwDeliverables : List String :=
  ["deliver", "output", "product", "feature", "component", "milestone"]
def kwStakeholders : List String :=
  ["stakeholder", "team", "department", "client", "customer", "vendor"]

/-- `any(w in lower for w in kws)`. -/
def matchesAny (lower : String) (kws : List String) : Bool :=
  kws.any (fun w => strContainsB lower w)

/-- One iteration of the sentence-classification loop: strip, skip empties,
append the sentence to every bucket whose keyword set matches its
lowercasing. -/
def extractStep (info : StructuredInfo) (raw : String) : StructuredInfo :=
  let sentence := pyStrip raw
  if sentence = "" then info
  else
    let lower := pyLower sentence
    { requirements := info.requirements ++
        (if matchesAny lower kwRequirements then [sentence] else [])
      decisions := info.decisions ++
        (if matchesAny lower kwDecisions then [sentence] else [])
      action_items := info.action_items ++
        (if matchesAny lower kwActionItems then [sentence] else [])
      timeline := info.timeline ++
        (if matchesAny lower kwTimeline then [sentence] else [])
      budget := info.budget ++
        (if matchesAny lower kwBudget then [sentence] else [])
      risks := info.risks ++
        (if matchesAny lower kwRisks then [sentence] else [])
      technical := info.technical ++
        (if matchesAny lower kwTechnical then [sentence] else [])
      deliverables := info.deliverables ++
        (if matchesAny lower kwDeliverables then [sentence] else [])
      stakeholders := info.stakeholders ++
        (if matchesAny lower kwStakeholders then [sentence] else []) }

/-- `extract_structured_info(text)`: split on terminator runs, classify each
sentence left to right. -/
def extractStructuredInfo (text : String) : StructuredInfo :=
  (splitTermRuns text).foldl extractStep emptyInfo

/-- The summary used by `generate_document`: a generation call with
`max_length=512, min_length=min(100, word_count)` for texts over 50 words,
otherwise the text itself. The generator oracle here is total because
`generate_document` has no exception handling around it. -/
def genDocSummary (gen : String → Nat → Nat → String) (text : String) :
    String :=
  if 50 < (pySplit text).length then
    gen text 512 (min 100 (pySplit text).length)
  else text

/-- `list(set(...))` of Python, modelled as order-preserving deduplication
(CPython set order is implementation-defined; the claims proved below state
only membership and duplicate-freeness). -/
def pySetList (l : List String) : List String := l.dedup

/-- The bucket merge of `generate_document`: for each key, the summary-derived
bucket is extended with the raw-text bucket and deduplicated via set
conversion. -/
def mergedInfo (gen : String → Nat → Nat → String) (text : String) :
    StructuredInfo :=
  let si := extractStructuredInfo (genDocSummary gen text)
  let ri := extractStructuredInfo text
  { requirements := pySetList (si.requirements ++ ri.requirements)
    decisions := pySetList (si.decisions ++ ri.decisions)
    action_items := pySetList (si.action_items ++ ri.action_items)
    timeline := pySetList (si.timeline ++ ri.timeline)
    budget := pySetList (si.budget ++ ri.budget)
    risks := pySetList (si.risks ++ ri.risks)
    technical := pySetList (si.technical ++ ri.technical)
    deliverables := pySetList (si.deliverables ++ ri.deliverables)
    stakeholders := pySetList (si.stakeholders ++ ri.stakeholders) }

/-- `metadata.get(key, default)` over a key-value association list. -/
def mget (m : List (String × String)) (k d : String) : String :=
  match m.lookup k with
  | some v => v
  | none => d

/-- The `{'='*80}` separator line. -/
def sep80 : String := { data := List.replicate 80 '=' }

/-- Python `f"{n:03d}"` for the `BR-`/`FR-` numbering. -/
def pad3 (n : Nat) : String :=
  if n < 10 then "00" ++ toString n
  else if n < 100 then "0" ++ toString n
  else toString n

/-- `generate_brd(summary_text, structured_info, metadata)`. `today` stands
for `datetime.now().strftime('%Y-%m-%d')` and `nowTs` for
`datetime.now().strftime('%Y-%m-%d %H:%M:%S')`. -/
def generateBrd (summaryText : String) (info : StructuredInfo)
    (metadata : List (String × String)) (today nowTs : String) : String :=
  "\n" ++ sep80 ++ "\nBUSINESS REQUIREMENTS DOCUMENT (BRD)\n" ++ sep80 ++
  "\n\nDocument Information:\n--------------------\nProject Name:     " ++
  mget metadata "project_name" "Audio Extracted Project" ++
  "\nDocument Date:    " ++ mget metadata "date" today ++
  "\nVersion:          " ++ mget metadata "version" "1.0" ++
  "\nPrepared By:      " ++
  mget metadata "author" "T5 Large Audio Analysis System" ++
  "\nStatus:           " ++
  mget metadata "status" "Draft - Extracted from Audio" ++
  "\nDepartment:       " ++ mget metadata "department" "TBD" ++
  "\nSponsor:          " ++ mget metadata "sponsor" "TBD" ++
  "\n\n\n1. EXECUTIVE SUMMARY\n" ++ sep80 ++ "\n\n" ++ summaryText ++
  "\n\n\n2. BUSINESS OBJECTIVES\n" ++ sep80 ++
  "\n\nBased on the audio discussion, the key business objectives are:\n\n" ++
  (if info.requirements ≠ [] then
    String.join ((info.requirements.take 5).mapIdx (fun i req =>
      "OBJ-" ++ toString (i + 1) ++ ": " ++ req ++ "\n"))
  else "Business objectives to be refined based on stakeholder review.\n") ++
  "\n\n3. BUSINESS REQUIREMENTS\n" ++ sep80 ++ "\n\n" ++
  (if info.requirements ≠ [] then
    String.join (info.requirements.mapIdx (fun i req =>
      "BR-" ++ pad3 (i + 1) ++ ": " ++ req ++
      "\n         Priority: " ++ mget metadata "priority" "Medium" ++
      "\n         Status: New\n         Source: Audio Discussion\n\n"))
  else "Business requirements extracted from executive summary above.\n") ++
  "\n\n4. FUNCTIONAL REQUIREMENTS\n" ++ sep80 ++ "\n\n" ++
  (if info.technical ≠ [] then
    String.join (info.technical.mapIdx (fun i tech =>
      "FR-" ++ pad3 (i + 1) ++ ": " ++ tech ++
      "\n         Category: " ++ mget metadata "category" "Technical" ++
      "\n         Priority: " ++ mget metadata "priority" "Medium" ++ "\n\n"))
  else "Functional requirements to be detailed in technical specification.\n") ++
  "\n\n5. STAKEHOLDERS\n" ++ sep80 ++ "\n\n" ++
  (if info.stakeholders ≠ [] then
    "Stakeholders identified in discussion:\n\n" ++
    String.join (info.stakeholders.map (fun st => "• " ++ st ++ "\n"))
  else
    "\nPrimary Stakeholders:\n• Project Sponsor: " ++
    mget metadata "sponsor" "TBD" ++
    "\n• Business Owner: " ++ mget metadata "business_owner" "TBD" ++
    "\n• Project Manager: " ++ mget metadata "pm" "TBD" ++
    "\n• End Users: " ++ mget metadata "end_users" "As discussed in audio" ++
    "\n") ++
  "\n\n6. KEY DECISIONS\n" ++ sep80 ++ "\n\n" ++
  (if info.decisions ≠ [] then
    String.join (info.decisions.mapIdx (fun i d =>
      "D" ++ toString (i + 1) ++ ". " ++ d ++
      "\n    Date: " ++ mget metadata "date" "TBD" ++
      "\n    Decision Maker: " ++ mget metadata "decision_maker" "TBD" ++
      "\n\n"))
  else "Key decisions documented in executive summary.\n") ++
  "\n\n7. SCOPE\n" ++ sep80 ++ "\n\nIn Scope:\n" ++
  (if info.deliverables ≠ [] then
    String.join (info.deliverables.map (fun d => "• " ++ d ++ "\n"))
  else "• As defined in requirements above\n") ++
  "\n\nOut of Scope:\n• Items not mentioned in the audio discussion\n" ++
  "• Features to be considered for future phases\n\n" ++
  "\n\n8. TIMELINE & MILESTONES\n" ++ sep80 ++ "\n\n" ++
  (if info.timeline ≠ [] then
    String.join (info.timeline.map (fun m => "• " ++ m ++ "\n"))
  else
    "\nProject Timeline:\n• Requirements Phase: " ++
    mget metadata "req_phase" "TBD" ++
    "\n• Design Phase: " ++ mget metadata "design_phase" "TBD" ++
    "\n• Development Phase: " ++ mget metadata "dev_phase" "TBD" ++
    "\n• Testing Phase: " ++ mget metadata "test_phase" "TBD" ++
    "\n• Deployment: " ++ mget metadata "deployment" "TBD" ++ "\n") ++
  "\n\n9. BUDGET & RESOURCES\n" ++ sep80 ++ "\n\n" ++
  (if info.budget ≠ [] then
    String.join (info.budget.map (fun b => "• " ++ b ++ "\n"))
  else
    "\nEstimated Budget: " ++ mget metadata "budget" "To be determined" ++
    "\n\nResource Requirements:\n• Team Size: " ++
    mget metadata "team_size" "TBD" ++
    "\n• Duration: " ++ mget metadata "duration" "TBD" ++
    "\n• External Resources: " ++ mget metadata "external_resources" "TBD" ++
    "\n") ++
  "\n\n10. RISKS & ASSUMPTIONS\n" ++ sep80 ++ "\n\nRisks Identified:\n" ++
  (if info.risks ≠ [] then
    String.join (info.risks.mapIdx (fun i r =>
      toString (i + 1) ++ ". " ++ r ++
      "\n   Impact: " ++ mget metadata "risk_impact" "Medium" ++
      "\n   Mitigation: To be defined\n\n"))
  else "Risk assessment to be conducted during project planning.\n") ++
  "\n\nAssumptions:\n• Resources will be available as per project timeline\n" ++
  "• Stakeholder approvals will be obtained in timely manner\n" ++
  "• Technical infrastructure is available and ready\n\n" ++
  "\n\n11. DEPENDENCIES\n" ++ sep80 ++
  "\n\n• Dependencies identified in audio discussion\n" ++
  "• External systems and integrations as required\n" ++
  "• Third-party services and vendors as needed\n\n\n12. SUCCESS CRITERIA\n" ++
  sep80 ++
  "\n\nThe project will be considered successful when:\n\n" ++
  "• All business requirements are met\n• System is deployed and operational\n" ++
  "• User acceptance testing is completed successfully\n" ++
  "• Stakeholders sign off on deliverables\n\n\n13. APPROVAL\n" ++ sep80 ++
  "\n\nThis document has been reviewed and approved by:\n\n\n" ++
  "Business Owner: _____________________    Date: ___________\n\n" ++
  "Signature:      _____________________\n\n\n" ++
  "Project Sponsor: ____________________    Date: ___________\n\n" ++
  "Signature:       ____________________\n\n\n" ++ sep80 ++
  "\nDocument Generated from Audio Analysis using Whisper Large + FLAN-T5 Large\n" ++
  "Generated on: " ++ nowTs ++ "\n" ++ sep80 ++ "\n"

end ReqGen

namespace ReqGen

/-- Every strategy entry (known or fallback) has `12 ≤ min_words ≤ max_words`. -/
theorem strategyCfg_bounds (s : String) :
    12 ≤ (strategyCfg s).min_words ∧
      (strategyCfg s).min_words ≤ (strategyCfg s).max_words := by
  unfold strategyCfg
  split_ifs <;> exact ⟨by norm_num, by norm_num⟩

/-- The clamping chain of `calculate_adaptive_summary_length`, for arbitrary
band outputs `a` (max) and `b` (min): three invariants hold unconditionally,
and `min + 8 ≤ max` holds exactly when the clamped max is at least 16. -/
theorem clamp_bounds (a b cmin cmax : Nat) (h1 : cmin ≤ cmax) (h2 : 12 ≤ cmin) :
    max (min a cmax) cmin ≤ cmax ∧
    cmin ≤ max (min a cmax) cmin ∧
    8 ≤ max (min b (max (min a cmax) cmin - 8)) 8 ∧
    (16 ≤ max (min a cmax) cmin →
      max (min b (max (min a cmax) cmin - 8)) 8 + 8 ≤ max (min a cmax) cmin) ∧
    (max (min a cmax) cmin < 16 →
      max (min b (max (min a cmax) cmin - 8)) 8 = 8) := by
  omega

/-- C1 (counterexample): at `word_count = 0` with strategy `ultra_concise`
the policy returns `min_words = 8`, `max_words = 12`, violating the claimed
invariant `minWords ≤ maxWords − 8`. -/
theorem c1_counterexample :
    (calculateAdaptiveSummaryLength 0 "ultra_concise").min_words = 8 ∧
    (calculateAdaptiveSummaryLength 0 "ultra_concise").max_words = 12 ∧
    ¬ ((calculateAdaptiveSummaryLength 0 "ultra_concise").min_words + 8 ≤
        (calculateAdaptiveSummaryLength 0 "ultra_concise").max_words) := by
  decide

/-- C1 (amended): for every word count and strategy name,
`maxWords ≤ strategy.maxWords`, `maxWords ≥ strategy.minWords` and
`minWords ≥ 8` hold unconditionally; `minWords ≤ maxWords − 8` holds whenever
the resulting `maxWords` is at least 16, and in the remaining cases (only
reachable for `ultra_concise` with small inputs) the output has
`minWords = 8`. -/
theorem c1_adaptive_length_invariants (wc : Nat) (s : String) :
    (calculateAdaptiveSummaryLength wc s).max_words ≤ (strategyCfg s).max_words ∧
    (strategyCfg s).min_words ≤ (calculateAdaptiveSummaryLength wc s).max_words ∧
    8 ≤ (calculateAdaptiveSummaryLength wc s).min_words ∧
    (16 ≤ (calculateAdaptiveSummaryLength wc s).max_words →
      (calculateAdaptiveSummaryLength wc s).min_words + 8 ≤
        (calculateAdaptiveSummaryLength wc s).max_words) ∧
    ((calculateAdaptiveSummaryLength wc s).max_words < 16 →
      (calculateAdaptiveSummaryLength wc s).min_words = 8) := by
  obtain ⟨h12, hle⟩ := strategyCfg_bounds s
  unfold calculateAdaptiveSummaryLength
  split_ifs <;>
    exact clamp_bounds _ _ _ _ hle h12

/-- Witness for C1's amended theorem at a concrete input. -/
theorem c1_adaptive_length_invariants_witness :
    16 ≤ (calculateAdaptiveSummaryLength 1000 "balanced").max_words ∧
    (calculateAdaptiveSummaryLength 1000 "balanced").min_words + 8 ≤
      (calculateAdaptiveSummaryLength 1000 "balanced").max_words :=
  ⟨by decide, (c1_adaptive_length_invariants 1000 "balanced").2.2.2.1 (by decide)⟩

/-- Every word produced by the `str.split()` worker is nonempty and free of
whitespace, provided the accumulator is. -/
theorem wordsAux_words (l : List Char) : ∀ acc, (∀ c ∈ acc, ¬ isSpaceChar c) →
    ∀ w ∈ wordsAux l acc, w ≠ [] ∧ ∀ c ∈ w, ¬ isSpaceChar c := by
  induction l with
  | nil =>
      intro acc hacc w hw
      by_cases h : acc = []
      · simp [wordsAux, h] at hw
      · simp only [wordsAux, if_neg h, List.mem_singleton] at hw
        subst hw
        refine ⟨by simpa using h, ?_⟩
        intro c hc
        exact hacc c (List.mem_reverse.mp hc)
  | cons c rest ih =>
      intro acc hacc w hw
      by_cases hc : isSpaceChar c
      · by_cases h : acc = []
        · simp only [wordsAux, hc, if_true, h, if_pos] at hw
          exact ih [] (by simp) w hw
        · simp only [wordsAux, hc, if_true, if_neg h, List.mem_cons] at hw
          rcases hw with hw | hw
          · subst hw
            refine ⟨by simpa using h, ?_⟩
            intro x hx
            exact hacc x (List.mem_reverse.mp hx)
          · exact ih [] (by simp) w hw
      · simp only [wordsAux, hc, if_false] at hw
        refine ih (c :: acc) ?_ w hw
        intro x hx
        rcases List.mem_cons.mp hx with rfl | hx
        · exact hc
        · exact hacc x hx

/-- Every word of `pySplit` is nonempty and whitespace-free. -/
theorem pySplit_words (s : String) :
    ∀ w ∈ pySplit s, w.data ≠ [] ∧ ∀ c ∈ w.data, ¬ isSpaceChar c := by
  intro w hw
  simp only [pySplit, List.mem_map] at hw
  obtain ⟨d, hd, rfl⟩ := hw
  exact wordsAux_words s.data [] (by simp) d hd

/-- Feeding a whitespace-free block of characters to the split worker just
accumulates it. -/
theorem wordsAux_block (w : List Char) : ∀ acc l, (∀ c ∈ w, ¬ isSpaceChar c) →
    wordsAux (w ++ l) acc = wordsAux l (w.reverse ++ acc) := by
  induction w with
  | nil => intro acc l _; simp
  | cons c w' ih =>
      intro acc l h
      have hc : ¬ isSpaceChar c = true := h c (by simp)
      show wordsAux (c :: (w' ++ l)) acc = _
      rw [wordsAux, if_neg hc, ih (c :: acc) l (fun x hx => h x (by simp [hx]))]
      simp

/-- String append at the character level. -/
theorem strData_append (a b : String) : (a ++ b).data = a.data ++ b.data :=
  String.data_append a b

/-- String append is associative. -/
theorem strAppend_assoc (a b c : String) : a ++ b ++ c = a ++ (b ++ c) := by
  apply String.ext
  simp [strData_append]

/-- `' '.join` then `str.split()` round-trips on lists of nonempty,
whitespace-free words. -/
theorem pySplit_joinSp (ws : List String)
    (h : ∀ w ∈ ws, w.data ≠ [] ∧ ∀ c ∈ w.data, ¬ isSpaceChar c) :
    pySplit (joinSp ws) = ws := by
  induction ws with
  | nil => rfl
  | cons x rest ih =>
      obtain ⟨hx, hxw⟩ := h x (by simp)
      cases rest with
      | nil =>
          show (wordsAux (joinSp [x]).data []).map _ = [x]
          have : (joinSp [x]).data = x.data ++ [] := by simp [joinSp]
          rw [this, wordsAux_block x.data [] [] hxw]
          simp [wordsAux, hx]
      | cons y rest' =>
          have hdata : (joinSp (x :: y :: rest')).data =
              x.data ++ (' ' :: (joinSp (y :: rest')).data) := by
            show (x ++ " " ++ joinSp (y :: rest')).data = _
            rw [strAppend_assoc, strData_append]
            rfl
          show (wordsAux (joinSp (x :: y :: rest')).data []).map _ = x :: y :: rest'
          rw [hdata, wordsAux_block x.data [] _ hxw]
          have hrev : x.data.reverse ++ [] ≠ [] := by simpa using hx
          rw [wordsAux, if_pos (show isSpaceChar ' ' = true from rfl), if_neg hrev]
          rw [List.map_cons]
          have hx' : ({ data := (x.data.reverse ++ []).reverse } : String) = x := by
            apply String.ext; simp
          rw [hx']
          exact congrArg (x :: ·) (ih (fun w hw => h w (by simp [hw])))

/-- The 400-word groups reassemble to the original word list. -/
theorem chunks400_flatten : ∀ n (l : List String), l.length ≤ n →
    (chunks400 l).flatten = l := by
  intro n
  induction n with
  | zero =>
      intro l h
      have : l = [] := by
        cases l with
        | nil => rfl
        | cons a t => simp at h
      rw [chunks400]
      simp [this]
  | succ n ih =>
      intro l h
      rw [chunks400]
      by_cases hl : l = []
      · simp [hl]
      · simp only [if_neg hl, List.flatten_cons]
        rw [ih (l.drop 400) ?_]
        · exact List.take_append_drop 400 l
        · have : l.length ≠ 0 := by simpa [List.length_eq_zero] using hl
          simp only [List.length_drop]
          omega

/-- Every 400-word group is nonempty. -/
theorem chunks400_ne_nil : ∀ n (l : List String), l.length ≤ n →
    ∀ g ∈ chunks400 l, g ≠ [] := by
  intro n
  induction n with
  | zero =>
      intro l h g hg
      have : l = [] := by
        cases l with
        | nil => rfl
        | cons a t => simp at h
      rw [chunks400] at hg
      simp [this] at hg
  | succ n ih =>
      intro l h g hg
      rw [chunks400] at hg
      by_cases hl : l = []
      · simp [hl] at hg
      · simp only [if_neg hl, List.mem_cons] at hg
        rcases hg with rfl | hg
        · intro htake
          rcases List.take_eq_nil_iff.mp htake with h' | h'
          · exact absurd h' (by norm_num)
          · exact hl h'
        · refine ih (l.drop 400) ?_ g hg
          have : l.length ≠ 0 := by simpa [List.length_eq_zero] using hl
          simp only [List.length_drop]
          omega

/-- Every member of a 400-word group is a word of the original list. -/
theorem chunks400_mem : ∀ n (l : List String), l.length ≤ n →
    ∀ g ∈ chunks400 l, ∀ x ∈ g, x ∈ l := by
  intro n
  induction n with
  | zero =>
      intro l h g hg
      have : l = [] := by
        cases l with
        | nil => rfl
        | cons a t => simp at h
      rw [chunks400] at hg
      simp [this] at hg
  | succ n ih =>
      intro l h g hg x hx
      rw [chunks400] at hg
      by_cases hl : l = []
      · simp [hl] at hg
      · simp only [if_neg hl, List.mem_cons] at hg
        rcases hg with rfl | hg
        · exact List.mem_of_mem_take hx
        · have hlen : (l.drop 400).length ≤ n := by
            have : l.length ≠ 0 := by simpa [List.length_eq_zero] using hl
            simp only [List.length_drop]
            omega
          exact List.mem_of_mem_drop (ih (l.drop 400) hlen g hg x hx)

/-- `' '.join` concatenation over nonempty pieces. -/
theorem joinSp_append (l1 l2 : List String) (h1 : l1 ≠ []) (h2 : l2 ≠ []) :
    joinSp (l1 ++ l2) = joinSp l1 ++ " " ++ joinSp l2 := by
  induction l1 with
  | nil => exact absurd rfl h1
  | cons x rest ih =>
      cases rest with
      | nil =>
          cases l2 with
          | nil => exact absurd rfl h2
          | cons y r2 => rfl
      | cons y r =>
          show joinSp (x :: (y :: r ++ l2)) = _
          have : y :: r ++ l2 = y :: (r ++ l2) := rfl
          rw [this]
          show x ++ " " ++ joinSp (y :: (r ++ l2)) = x ++ " " ++ joinSp (x :: y :: r).tail ++ " " ++ joinSp l2
          have htail : joinSp (y :: (r ++ l2)) = joinSp (y :: r) ++ " " ++ joinSp l2 := by
            have := ih (by simp)
            simpa using this
          rw [htail]
          simp [strAppend_assoc]

/-- Joining the per-group joins equals joining the full word list, for
nonempty groups. -/
theorem joinSp_map (groups : List (List String)) (h : ∀ g ∈ groups, g ≠ []) :
    joinSp (groups.map joinSp) = joinSp groups.flatten := by
  induction groups with
  | nil => rfl
  | cons g rest ih =>
      cases rest with
      | nil => simp [joinSp]
      | cons g' rest' =>
          have hg : g ≠ [] := h g (by simp)
          have hflat : (g' :: rest').flatten ≠ [] := by
            have hg' : g' ≠ [] := h g' (by simp)
            simp only [List.flatten_cons]
            intro habs
            exact hg' (List.append_eq_nil.mp habs).1
          show joinSp g ++ " " ++ joinSp ((g' :: rest').map joinSp) = _
          rw [ih (fun x hx => h x (by simp [hx]))]
          simp only [List.flatten_cons]
          rw [show g ++ (g' ++ rest'.flatten) = g ++ ((g' :: rest').flatten) from by
            simp]
          rw [joinSp_append g ((g' :: rest').flatten) hg hflat]
          simp [List.flatten_cons]

/-- C6: fixed-size chunking with chunk size 400 partitions the word sequence:
the chunk word counts sum to the total word count, joining the chunk texts
with single spaces and re-splitting reproduces the original word sequence,
and a 900-word input yields exactly the groups of 400, 400 and 100 words. -/
theorem c6_fixed_size_chunking (text : String) :
    ((((chunks400 (pySplit text)).map joinSp).map
        (fun c => (pySplit c).length)).sum = (pySplit text).length) ∧
    pySplit (joinSp ((chunks400 (pySplit text)).map joinSp)) = pySplit text ∧
    (chunks400 (List.replicate 900 "w")).map List.length = [400, 400, 100] := by
  have hwords := pySplit_words text
  have hmem := chunks400_mem (pySplit text).length (pySplit text) le_rfl
  have hne := chunks400_ne_nil (pySplit text).length (pySplit text) le_rfl
  have hround : ∀ g ∈ chunks400 (pySplit text), pySplit (joinSp g) = g :=
    fun g hg => pySplit_joinSp g (fun w hw => hwords w (hmem g hg w hw))
  refine ⟨?_, ?_, ?_⟩
  · rw [List.map_map]
    have hcongr : (chunks400 (pySplit text)).map
          ((fun c => (pySplit c).length) ∘ joinSp) =
        (chunks400 (pySplit text)).map List.length := by
      apply List.map_congr_left
      intro g hg
      simp [Function.comp, hround g hg]
    rw [hcongr, ← List.length_flatten,
      chunks400_flatten (pySplit text).length (pySplit text) le_rfl]
  · rw [joinSp_map _ hne,
      chunks400_flatten (pySplit text).length (pySplit text) le_rfl]
    exact pySplit_joinSp (pySplit text) hwords
  · have hrep : ∀ n : Nat, n ≠ 0 → (List.replicate n "w" : List String) ≠ [] := by
      intro n hn habs
      have := congrArg List.length habs
      simp only [List.length_replicate, List.length_nil] at this
      exact hn this
    rw [chunks400, if_neg (hrep 900 (by norm_num)), List.take_replicate,
      List.drop_replicate]
    rw [show (400 ⊓ 900 : Nat) = 400 from rfl, show (900 - 400 : Nat) = 500 from rfl]
    rw [chunks400, if_neg (hrep 500 (by norm_num)), List.take_replicate,
      List.drop_replicate]
    rw [show (400 ⊓ 500 : Nat) = 400 from rfl, show (500 - 400 : Nat) = 100 from rfl]
    rw [chunks400, if_neg (hrep 100 (by norm_num)), List.take_replicate,
      List.drop_replicate]
    rw [show (400 ⊓ 100 : Nat) = 100 from rfl, show (100 - 400 : Nat) = 0 from rfl,
      List.replicate_zero, chunks400, if_pos rfl]
    rw [List.map_cons, List.map_cons, List.map_cons, List.map_nil,
      List.length_replicate, List.length_replicate]

/-- A chunk whose generation call fails contributes nothing, and the other
chunks are unaffected. -/
theorem chunkSummaries_drop (f : String → Option String) (c : String)
    (h : f c = none) :
    ∀ pre post, chunkSummaries f (pre ++ c :: post) =
      chunkSummaries f (pre ++ post) := by
  intro pre
  induction pre with
  | nil =>
      intro post
      show chunkSummaries f (c :: post) = chunkSummaries f post
      rw [chunkSummaries]
      by_cases h25 : (pySplit c).length < 25
      · rw [if_pos h25]
      · rw [if_neg h25, h]
  | cons a pre' ih =>
      intro post
      show chunkSummaries f (a :: (pre' ++ c :: post)) =
        chunkSummaries f (a :: (pre' ++ post))
      rw [chunkSummaries]
      conv_rhs => rw [chunkSummaries]
      by_cases h25 : (pySplit a).length < 25
      · rw [if_pos h25, if_pos h25, ih]
      · rw [if_neg h25, if_neg h25]
        cases hfa : f a with
        | some s => simp [ih]
        | none => simp [ih]

/-- C4: in the fixed-size chunked path, a failed generation call for one chunk
only removes that chunk's contribution (the remaining chunks are still
processed); if no chunk contributes, the result is `text[:500]`; and if the
consolidation call fails, the result is the unconsolidated space-joined chunk
summaries. -/
theorem c4_long_text_error_handling (gen : String → Nat → Nat → Option String)
    (cfg : SummaryConfig) (text : String) :
    (∀ (pre post : List String) (c : String), sltGen gen cfg c = none →
        chunkSummaries (sltGen gen cfg) (pre ++ c :: post) =
          chunkSummaries (sltGen gen cfg) (pre ++ post)) ∧
    (chunkSummaries (sltGen gen cfg) ((chunks400 (pySplit text)).map joinSp)
        = [] → summarizeLongText gen cfg text = strTake text 500) ∧
    (∀ sums, sums = chunkSummaries (sltGen gen cfg)
          ((chunks400 (pySplit text)).map joinSp) →
      sums ≠ [] →
      1 < ((chunks400 (pySplit text)).map joinSp).length →
      cfg.max_words < (pySplit (joinSp sums)).length →
      gen (joinSp sums) cfg.max_length cfg.min_length = none →
      summarizeLongText gen cfg text = joinSp sums) := by
  refine ⟨?_, ?_, ?_⟩
  · intro pre post c hc
    exact chunkSummaries_drop (sltGen gen cfg) c hc pre post
  · intro h
    simp only [summarizeLongText]
    rw [h]
    simp
  · intro sums hsums hne hlen hover hgen
    simp only [summarizeLongText]
    rw [← hsums, if_neg hne, if_pos ⟨hlen, hover⟩, hgen]

/-- A word list of at most 400 words forms a single chunk. -/
theorem chunks400_small (l : List String) (h : l.length ≤ 400) (hne : l ≠ []) :
    chunks400 l = [l] := by
  rw [chunks400, if_neg hne, List.drop_eq_nil_of_le h, List.take_of_length_le h,
    chunks400]
  simp

/-- Witness for C4 at a concrete input: with an always-failing generator and a
three-word input, every chunk is skipped and the `text[:500]` fallback is
returned. -/
theorem c4_long_text_error_handling_witness :
    chunkSummaries (sltGen (fun _ _ _ => none)
        (calculateAdaptiveSummaryLength 3 "balanced"))
        ((chunks400 (pySplit "a b c")).map joinSp) = [] ∧
    summarizeLongText (fun _ _ _ => none)
        (calculateAdaptiveSummaryLength 3 "balanced") "a b c" =
      strTake "a b c" 500 := by
  have h1 : pySplit "a b c" = ["a", "b", "c"] := by decide
  have h2 : chunks400 (pySplit "a b c") = [pySplit "a b c"] :=
    chunks400_small _ (by rw [h1]; decide) (by rw [h1]; decide)
  refine ⟨?_, ?_⟩
  · rw [h2, h1]; decide
  · exact (c4_long_text_error_handling (fun _ _ _ => none)
      (calculateAdaptiveSummaryLength 3 "balanced") "a b c").2.1
      (by rw [h2, h1]; decide)

/-- C5 (counterexample): three identical consecutive sentences at the very
start of the text are NOT truncated — the guard's `i > 2` test skips index 2,
so `"Hi. Hi. Hi."` passes through unchanged instead of being truncated at the
second repeat. -/
theorem c5_counterexample :
    splitSentences "Hi. Hi. Hi." = ["Hi.", "Hi.", "Hi."] ∧
    manualCleanRepetition "Hi. Hi. Hi." = "Hi. Hi. Hi." ∧
    manualCleanRepetition "Hi. Hi. Hi." ≠ "Hi. Hi." := by
  decide

/-- First-fire characterization of the repetition-guard loop: if the guard
condition holds at index `j ≥ 3` and at no earlier index, the loop keeps
exactly the first `j` sentences. -/
theorem cleanRepGo_take (L : List String) (j : Nat) (h3 : 3 ≤ j)
    (hjlen : j < L.length)
    (hfire : L[j-1]? = L[j]? ∧ L[j-2]? = L[j]?)
    (hnoearly : ∀ i, i < j → 3 ≤ i → ¬(L[i-1]? = L[i]? ∧ L[i-2]? = L[i]?)) :
    ∀ (suffix : List String) (k : Nat), suffix = L.drop k → k ≤ j →
      cleanRepGo L suffix k = (L.take j).drop k := by
  intro suffix
  induction suffix with
  | nil =>
      intro k hdrop hk
      exfalso
      have hlen : L.length ≤ k := List.drop_eq_nil_iff.mp hdrop.symm
      omega
  | cons sent rest2 ih =>
      intro k hdrop hk
      have hk_lt : k < L.length := by
        by_contra hge
        push_neg at hge
        rw [List.drop_eq_nil_of_le hge] at hdrop
        exact absurd hdrop (by simp)
      have hgetk : L[k]? = some sent := by
        have h1 := congrArg List.head? hdrop
        rw [List.head?_drop] at h1
        simpa using h1.symm
      have hrest2 : rest2 = L.drop (k + 1) := by
        have h1 := congrArg List.tail hdrop
        rw [List.tail_drop] at h1
        simpa using h1
      rw [cleanRepGo]
      by_cases hcond : 2 < k ∧ L[k-1]? = some sent ∧ L[k-2]? = some sent
      · rw [if_pos hcond]
        have hkj : k = j := by
          by_contra hne
          have hklt : k < j := lt_of_le_of_ne hk hne
          apply hnoearly k hklt (by omega)
          rw [hgetk]
          exact ⟨hcond.2.1, hcond.2.2⟩
        subst hkj
        symm
        rw [List.drop_eq_nil_iff, List.length_take]
        omega
      · rw [if_neg hcond]
        have hklt : k < j := by
          rcases lt_or_eq_of_le hk with hlt | heq
          · exact hlt
          · exfalso
            apply hcond
            subst heq
            refine ⟨by omega, ?_, ?_⟩
            · rw [← hgetk]
              exact hfire.1
            · rw [← hgetk]
              exact hfire.2
        rw [ih (k + 1) hrest2 (by omega)]
        have hlen_take : k < (L.take j).length := by
          rw [List.length_take]
          omega
        rw [List.drop_eq_getElem_cons hlen_take]
        have hgelem : (L.take j)[k] = sent := by
          rw [List.getElem_take]
          have h2 := List.getElem?_eq_getElem hk_lt
          rw [hgetk] at h2
          exact (Option.some.inj h2).symm
        rw [hgelem]

/-- C5 (amended): the repetition guard truncates at the second repeat
whenever the three identical consecutive sentences start at sentence index
≥ 1 (any number of preceding sentences) and no earlier triple has already
fired the guard: the output keeps the sentences before the triple plus the
first two copies. A triple occupying the first three sentence positions is
kept unchanged, because the loop's `i > 2` test cannot fire before index 3. -/
theorem c5_repetition_guard (text s : String) (pre rest : List String)
    (hsplit : splitSentences text = pre ++ s :: s :: s :: rest)
    (hpre : pre ≠ [])
    (hnoearly : ∀ i, i < pre.length + 2 → 3 ≤ i →
      ¬((splitSentences text)[i-1]? = (splitSentences text)[i]? ∧
        (splitSentences text)[i-2]? = (splitSentences text)[i]?)) :
    manualCleanRepetition text = joinSp (pre ++ [s, s]) := by
  rw [hsplit] at hnoearly
  have hprelen : 1 ≤ pre.length := by
    have := List.length_pos.mpr hpre
    omega
  have hget0 : (pre ++ s :: s :: s :: rest)[pre.length]? = some s := by
    rw [List.getElem?_append_right le_rfl]
    simp
  have hget1 : (pre ++ s :: s :: s :: rest)[pre.length + 1]? = some s := by
    rw [List.getElem?_append_right (by omega)]
    have h1 : pre.length + 1 - pre.length = 1 := by omega
    rw [h1]
    simp
  have hget2 : (pre ++ s :: s :: s :: rest)[pre.length + 2]? = some s := by
    rw [List.getElem?_append_right (by omega)]
    have h1 : pre.length + 2 - pre.length = 2 := by omega
    rw [h1]
    simp
  have hjlen : pre.length + 2 < (pre ++ s :: s :: s :: rest).length := by
    simp [List.length_append]
  have hfire : (pre ++ s :: s :: s :: rest)[pre.length + 2 - 1]? =
      (pre ++ s :: s :: s :: rest)[pre.length + 2]? ∧
      (pre ++ s :: s :: s :: rest)[pre.length + 2 - 2]? =
      (pre ++ s :: s :: s :: rest)[pre.length + 2]? := by
    constructor
    · have h1 : pre.length + 2 - 1 = pre.length + 1 := by omega
      rw [h1, hget1, hget2]
    · have h1 : pre.length + 2 - 2 = pre.length := by omega
      rw [h1, hget0, hget2]
  have htake : (pre ++ s :: s :: s :: rest).take (pre.length + 2) =
      pre ++ [s, s] := by
    rw [List.take_append]
    rfl
  unfold manualCleanRepetition
  rw [hsplit]
  rw [if_neg (by
    intro habs
    exact hpre (List.append_eq_nil.mp habs).1)]
  rw [cleanRepGo_take (pre ++ s :: s :: s :: rest) (pre.length + 2)
    (by omega) hjlen hfire hnoearly (pre ++ s :: s :: s :: rest) 0 rfl
    (by omega)]
  rw [List.drop_zero, htake]

/-- Witness for C5's amended theorem at a concrete transcription with two
sentences before the triple. -/
theorem c5_repetition_guard_witness :
    splitSentences "A. B. Hi. Hi. Hi." =
      ["A.", "B."] ++ "Hi." :: "Hi." :: "Hi." :: [] ∧
    manualCleanRepetition "A. B. Hi. Hi. Hi." =
      joinSp (["A.", "B."] ++ ["Hi.", "Hi."]) :=
  ⟨by decide,
    c5_repetition_guard "A. B. Hi. Hi. Hi." "Hi." ["A.", "B."] []
      (by decide) (by decide)
      (by
        intro i h1 h2
        have h4 : i < 4 := by simpa using h1
        have h3 : i = 3 := by omega
        subst h3
        decide)⟩

/-- C8 (code evaluation at the failing input): the whitespace-cleanup step of
`_clean_hallucinations` uses `re.sub(r'\\s+', ' ', ...)`, whose pattern
matches a literal backslash followed by `s` characters rather than
whitespace, so the double space in `"a  b."` survives filtering. -/
theorem c8_code_eval :
    cleanHallucinations "a  b." = "a  b." ∧
    strContainsB (cleanHallucinations "a  b.") "  " = true := by
  decide

/-- C3 (code evaluation at the failing input): `_chunk_intelligently` splits
paragraphs on the literal four-character string `\n\n` and falls back to a
sentence regex whose `\\s+` likewise matches literal backslashes, so a
four-sentence, eight-word text with budget 3 comes back as a single chunk of
8 > 3 words even though it is divisible at sentence boundaries. -/
theorem c3_code_eval :
    chunkIntelligently "a b. c d. e f. g h." 3 = ["a b. c d. e f. g h."] ∧
    3 < (pySplit "a b. c d. e f. g h.").length ∧
    1 < (splitSentences "a b. c d. e f. g h.").length := by
  decide

/-- `str.find`'s worker never returns an offset before its start index. -/
theorem pyFindAux_le (n : List Char) :
    ∀ (l : List Char) (i p : Nat), pyFindAux n l i = some p → i ≤ p := by
  intro l
  induction l with
  | nil =>
      intro i p h
      rw [pyFindAux] at h
      by_cases hp : n.isPrefixOf ([] : List Char) = true
      · rw [if_pos hp] at h
        exact le_of_eq (Option.some.inj h)
      · rw [if_neg hp] at h
        exact absurd h (by simp)
  | cons c t ih =>
      intro i p h
      rw [pyFindAux] at h
      by_cases hp : n.isPrefixOf (c :: t) = true
      · rw [if_pos hp] at h
        exact le_of_eq (Option.some.inj h)
      · rw [if_neg hp] at h
        exact Nat.le_of_succ_le (ih (i + 1) p h)

/-- A found offset is a real occurrence. -/
theorem pyFindAux_sound (n : List Char) :
    ∀ (l : List Char) (i p : Nat), pyFindAux n l i = some p →
      n.isPrefixOf (l.drop (p - i)) = true := by
  intro l
  induction l with
  | nil =>
      intro i p h
      rw [pyFindAux] at h
      by_cases hp : n.isPrefixOf ([] : List Char) = true
      · simpa using hp
      · rw [if_neg hp] at h
        exact absurd h (by simp)
  | cons c t ih =>
      intro i p h
      rw [pyFindAux] at h
      by_cases hp : n.isPrefixOf (c :: t) = true
      · rw [if_pos hp] at h
        have hip : i = p := Option.some.inj h
        subst hip
        simpa using hp
      · rw [if_neg hp] at h
        have hle : i + 1 ≤ p := pyFindAux_le n t (i + 1) p h
        have hrec := ih (i + 1) p h
        have hdrop : (c :: t).drop (p - i) = t.drop (p - (i + 1)) := by
          have h1 : p - i = (p - (i + 1)) + 1 := by omega
          rw [h1, List.drop_succ_cons]
        rw [hdrop]
        exact hrec

/-- `str.find` returns an offset at or before every occurrence. -/
theorem pyFindAux_min (n : List Char) :
    ∀ (l : List Char) (i k : Nat), n.isPrefixOf (l.drop k) = true →
      ∃ p, pyFindAux n l i = some p ∧ p ≤ i + k := by
  intro l
  induction l with
  | nil =>
      intro i k h
      rw [List.drop_nil] at h
      refine ⟨i, ?_, by omega⟩
      rw [pyFindAux, if_pos h]
  | cons c t ih =>
      intro i k h
      cases k with
      | zero =>
          rw [List.drop_zero] at h
          exact ⟨i, by rw [pyFindAux, if_pos h], by omega⟩
      | succ k2 =>
          rw [List.drop_succ_cons] at h
          by_cases hp : n.isPrefixOf (c :: t) = true
          · exact ⟨i, by rw [pyFindAux, if_pos hp], by omega⟩
          · obtain ⟨p, hfind, hle⟩ := ih (i + 1) k2 h
            refine ⟨p, ?_, by omega⟩
            rw [pyFindAux, if_neg hp]
            exact hfind

/-- Case analysis of one trigger-scan step: either the state is unchanged
(no hit, or a hit at or after the current minimum), or the state becomes the
hit position and trigger. -/
theorem scanStep_cases (text : String) (st : Nat × Option String) (g : String) :
    (scanStep text st g = st ∧
      (pyFind text g = none ∨ ∃ p, pyFind text g = some p ∧ st.1 ≤ p)) ∨
    (∃ p, pyFind text g = some p ∧ p < st.1 ∧
      scanStep text st g = (p, some g)) := by
  unfold scanStep
  cases hf : pyFind text g with
  | none => exact Or.inl ⟨rfl, Or.inl rfl⟩
  | some p =>
      by_cases hlt : p < st.1
      · refine Or.inr ⟨p, rfl, hlt, ?_⟩
        dsimp only
        rw [if_pos hlt]
      · refine Or.inl ⟨?_, Or.inr ⟨p, rfl, by omega⟩⟩
        dsimp only
        rw [if_neg hlt]

/-- The scan's running minimum never increases. -/
theorem scanFold_fst_le (text : String) :
    ∀ (gs : List String) (st : Nat × Option String),
      (gs.foldl (scanStep text) st).1 ≤ st.1 := by
  intro gs
  induction gs with
  | nil => intro st; exact le_rfl
  | cons a gs ih =>
      intro st
      rw [List.foldl_cons]
      rcases scanStep_cases text st a with ⟨heq, -⟩ | ⟨p, -, hlt, heq⟩
      · rw [heq]; exact ih st
      · rw [heq]
        exact le_trans (ih (p, some a)) (le_of_lt hlt)

/-- The scan result is at or before every `find` hit of a scanned trigger. -/
theorem scanFold_le_find (text : String) :
    ∀ (gs : List String) (st : Nat × Option String) (g : String) (p : Nat),
      g ∈ gs → pyFind text g = some p →
      (gs.foldl (scanStep text) st).1 ≤ p := by
  intro gs
  induction gs with
  | nil => intro st g p hg _; exact absurd hg (by simp)
  | cons a gs ih =>
      intro st g p hg hf
      rw [List.foldl_cons]
      rcases List.mem_cons.mp hg with rfl | hg
      · rcases scanStep_cases text st g with ⟨heq, hreason⟩ | ⟨p2, hf2, hlt, heq⟩
        · rw [heq]
          rcases hreason with hnone | ⟨p2, hf2, hge⟩
          · rw [hf] at hnone
            exact absurd hnone (by simp)
          · have hpp : p2 = p := by
              rw [hf] at hf2
              exact (Option.some.inj hf2).symm
            subst hpp
            exact le_trans (scanFold_fst_le text gs st) hge
        · rw [heq]
          have hpp : p2 = p := by
            rw [hf] at hf2
            exact (Option.some.inj hf2).symm
          subst hpp
          exact scanFold_fst_le text gs (p2, some g)
      · exact ih (scanStep text st a) g p hg hf

/-- Whenever the scan reports a trigger, the reported position is that
trigger's `find` result. -/
theorem scanFold_inv (text : String) :
    ∀ (gs : List String) (st : Nat × Option String),
      (∀ tr, st.2 = some tr → pyFind text tr = some st.1) →
      ∀ tr, (gs.foldl (scanStep text) st).2 = some tr →
        pyFind text tr = some (gs.foldl (scanStep text) st).1 := by
  intro gs
  induction gs with
  | nil => intro st hst tr h; exact hst tr h
  | cons a gs ih =>
      intro st hst tr h
      rw [List.foldl_cons] at h ⊢
      refine ih (scanStep text st a) ?_ tr h
      intro tr2 htr2
      rcases scanStep_cases text st a with ⟨heq, -⟩ | ⟨p, hf, hlt, heq⟩
      · rw [heq] at htr2 ⊢
        exact hst tr2 htr2
      · rw [heq] at htr2 ⊢
        have : a = tr2 := Option.some.inj htr2
        subst this
        exact hf

/-- A reported trigger was either carried in or is one of the scanned ones. -/
theorem scanFold_mem (text : String) :
    ∀ (gs : List String) (st : Nat × Option String) (tr : String),
      (gs.foldl (scanStep text) st).2 = some tr →
      tr ∈ gs ∨ st.2 = some tr := by
  intro gs
  induction gs with
  | nil => intro st tr h; exact Or.inr h
  | cons a gs ih =>
      intro st tr h
      rw [List.foldl_cons] at h
      rcases ih (scanStep text st a) tr h with hmem | hcarry
      · exact Or.inl (List.mem_cons_of_mem a hmem)
      · rcases scanStep_cases text st a with ⟨heq, -⟩ | ⟨p, hf, hlt, heq⟩
        · rw [heq] at hcarry
          exact Or.inr hcarry
        · rw [heq] at hcarry
          have : a = tr := Option.some.inj hcarry
          subst this
          exact Or.inl (List.mem_cons_self a gs)

/-- If the scan reports no trigger, the state was never updated. -/
theorem scanFold_none (text : String) :
    ∀ (gs : List String) (st : Nat × Option String),
      (gs.foldl (scanStep text) st).2 = none →
      gs.foldl (scanStep text) st = st := by
  intro gs
  induction gs with
  | nil => intro st _; rfl
  | cons a gs ih =>
      intro st h
      rw [List.foldl_cons] at h ⊢
      have hrec := ih (scanStep text st a) h
      rw [hrec] at h ⊢
      rcases scanStep_cases text st a with ⟨heq, -⟩ | ⟨p, hf, hlt, heq⟩
      · exact heq
      · rw [heq] at h
        exact absurd h (by simp)

/-- All drift triggers are nonempty strings. -/
theorem stopTriggers_ne_empty : ∀ g ∈ stopTriggers, g.data ≠ [] := by
  decide

/-- C2: the hallucination filter scans for every drift-trigger literal and
truncates strictly before the earliest offset at which any trigger occurs:
the scan's offset is a lower bound of every occurrence of every trigger, a
reported trigger really occurs at the reported offset and the text is cut to
the stripped prefix before it, no report means the text passes unchanged, and
an existing occurrence is never missed. On a complete sentence followed by
`"## Exercise 1: do X"`, the output is exactly the sentence. -/
theorem c2_earliest_trigger_cut (text : String) :
    (∀ g ∈ stopTriggers, ∀ q, triggerAt text g q → (scanTriggers text).1 ≤ q) ∧
    (∀ tr, (scanTriggers text).2 = some tr → tr ∈ stopTriggers ∧
      triggerAt text tr (scanTriggers text).1 ∧
      cutTriggers text = pyStrip (strTake text (scanTriggers text).1)) ∧
    ((scanTriggers text).2 = none → cutTriggers text = text) ∧
    (∀ g ∈ stopTriggers, ∀ q, triggerAt text g q →
      (scanTriggers text).2 ≠ none) ∧
    cleanHallucinations "This is a valid sentence. ## Exercise 1: do X" =
      "This is a valid sentence." := by
  refine ⟨?_, ?_, ?_, ?_, by decide⟩
  · intro g hg q hq
    obtain ⟨p, hfind, hple⟩ := pyFindAux_min g.data text.data 0 q hq
    have hle0 : (scanTriggers text).1 ≤ p :=
      scanFold_le_find text stopTriggers (text.length, none) g p hg hfind
    omega
  · intro tr htr
    have hmem : tr ∈ stopTriggers := by
      rcases scanFold_mem text stopTriggers (text.length, none) tr htr with h | h
      · exact h
      · exact absurd h (by simp)
    have hfind : pyFind text tr = some (scanTriggers text).1 :=
      scanFold_inv text stopTriggers (text.length, none) (by simp) tr htr
    refine ⟨hmem, ?_, ?_⟩
    · have := pyFindAux_sound tr.data text.data 0 (scanTriggers text).1 hfind
      simpa [triggerAt] using this
    · unfold cutTriggers
      rw [htr]
  · intro h
    unfold cutTriggers
    rw [h]
  · intro g hg q hq habs
    have heq : scanTriggers text = (text.length, none) :=
      scanFold_none text stopTriggers (text.length, none) habs
    obtain ⟨p, hfind, hple⟩ := pyFindAux_min g.data text.data 0 q hq
    have hle0 : (scanTriggers text).1 ≤ p :=
      scanFold_le_find text stopTriggers (text.length, none) g p hg hfind
    have hfst : (scanTriggers text).1 = text.length := by rw [heq]
    have hle : text.length ≤ q := by omega
    have hdrop : text.data.drop q = [] :=
      List.drop_eq_nil_of_le (show text.data.length ≤ q from hle)
    rw [triggerAt, hdrop] at hq
    have : g.data = [] := by
      cases hgd : g.data with
      | nil => rfl
      | cons c t =>
          rw [hgd] at hq
          exact absurd hq (by simp [List.isPrefixOf])
    exact stopTriggers_ne_empty g hg this

/-- The head of the cleanup-substituted text can only be `s` if the input
already started with `s`. -/
theorem subBSGo_head_s (l : List Char) :
    (subBSGo false l).head? = some 's' → l.head? = some 's' := by
  cases l with
  | nil => intro h; exact absurd h (by simp [subBSGo])
  | cons d r =>
      intro h
      rw [subBSGo] at h
      by_cases h1 : (false : Bool) = true ∧ d = 's'
      · exact absurd h1.1 (by simp)
      · rw [if_neg h1] at h
        by_cases h2 : d = '\\' ∧ r.head? = some 's'
        · rw [if_pos h2] at h
          simp at h
        · rw [if_neg h2] at h
          simp at h
          simp [h]

/-- After the (broken) cleanup substitution, no match remains. -/
theorem subBSGo_hasBS (l : List Char) : ∀ b, hasBS (subBSGo b l) = false := by
  induction l with
  | nil => intro b; rfl
  | cons c rest ih =>
      intro b
      rw [subBSGo]
      by_cases h1 : b = true ∧ c = 's'
      · rw [if_pos h1]
        exact ih true
      · rw [if_neg h1]
        by_cases h2 : c = '\\' ∧ rest.head? = some 's'
        · rw [if_pos h2, hasBS]
          have hsp : ((' ' = '\\') : Bool) = false := by decide
          simp only [hsp, Bool.false_and, Bool.false_or]
          exact ih true
        · rw [if_neg h2, hasBS]
          apply Bool.or_eq_false_iff.mpr
          refine ⟨?_, ih false⟩
          by_cases hc : c = '\\'
          · have hs : ¬ (subBSGo false rest).head? = some 's' := fun habs =>
              h2 ⟨hc, subBSGo_head_s rest habs⟩
            simp [hs]
          · simp [hc]

/-- The cleanup substitution is the identity on match-free text. -/
theorem subBSGo_id (l : List Char) (h : hasBS l = false) :
    subBSGo false l = l := by
  induction l with
  | nil => rfl
  | cons c rest ih =>
      rw [hasBS] at h
      rcases Bool.or_eq_false_iff.mp h with ⟨hA, hB⟩
      have h1 : ¬ (c = '\\' ∧ rest.head? = some 's') := by
        rintro ⟨hc, hh⟩
        simp [hc, hh] at hA
      rw [subBSGo, if_neg (by rintro ⟨h2, -⟩; simp at h2), if_neg h1, ih hB]

/-- Every character of the substituted text is a character of the input or a
space. -/
theorem subBSGo_mem (l : List Char) :
    ∀ b c, c ∈ subBSGo b l → c ∈ l ∨ c = ' ' := by
  induction l with
  | nil => intro b c h; exact absurd h (by simp [subBSGo])
  | cons d rest ih =>
      intro b c h
      rw [subBSGo] at h
      by_cases h1 : b = true ∧ d = 's'
      · rw [if_pos h1] at h
        rcases ih true c h with hm | hsp
        · exact Or.inl (List.mem_cons_of_mem d hm)
        · exact Or.inr hsp
      · rw [if_neg h1] at h
        by_cases h2 : d = '\\' ∧ rest.head? = some 's'
        · rw [if_pos h2] at h
          rcases List.mem_cons.mp h with rfl | h
          · exact Or.inr rfl
          · rcases ih true c h with hm | hsp
            · exact Or.inl (List.mem_cons_of_mem d hm)
            · exact Or.inr hsp
        · rw [if_neg h2] at h
          rcases List.mem_cons.mp h with rfl | h
          · exact Or.inl (List.mem_cons_self c rest)
          · rcases ih false c h with hm | hsp
            · exact Or.inl (List.mem_cons_of_mem d hm)
            · exact Or.inr hsp

/-- The substitution preserves a terminator in final position. -/
theorem subBSGo_getLast (l : List Char) :
    ∀ b c, l.getLast? = some c → isTermChar c = true →
      (subBSGo b l).getLast? = some c := by
  induction l with
  | nil => intro b c h; exact absurd h (by simp)
  | cons d rest ih =>
      intro b c h hterm
      cases rest with
      | nil =>
          have hdc : d = c := by simpa using h
          subst hdc
          have hds : ¬ (b = true ∧ d = 's') := by
            rintro ⟨-, h2⟩
            rw [h2] at hterm
            exact absurd hterm (by decide)
          have hdb : ¬ (d = '\\' ∧ ([] : List Char).head? = some 's') := by
            rintro ⟨-, h2⟩
            simp at h2
          rw [subBSGo, if_neg hds, if_neg hdb]
          rfl
      | cons e r2 =>
          have hrest : (e :: r2).getLast? = some c := by
            rw [← List.getLast?_cons_cons (a := d)]
            exact h
          rw [subBSGo]
          by_cases h1 : b = true ∧ d = 's'
          · rw [if_pos h1]
            exact ih true c hrest hterm
          · rw [if_neg h1]
            by_cases h2 : d = '\\' ∧ (e :: r2).head? = some 's'
            · rw [if_pos h2]
              have hx := ih true c hrest hterm
              have hne : subBSGo true (e :: r2) ≠ [] := by
                intro habs
                rw [habs] at hx
                simp at hx
              cases hcase : subBSGo true (e :: r2) with
              | nil => exact absurd hcase hne
              | cons y t =>
                  rw [hcase] at hx
                  rw [List.getLast?_cons_cons]
                  exact hx
            · rw [if_neg h2]
              have hx := ih false c hrest hterm
              have hne : subBSGo false (e :: r2) ≠ [] := by
                intro habs
                rw [habs] at hx
                simp at hx
              cases hcase : subBSGo false (e :: r2) with
              | nil => exact absurd hcase hne
              | cons y t =>
                  rw [hcase] at hx
                  rw [List.getLast?_cons_cons]
                  exact hx

/-- `hasBS` is inherited by prefixes. -/
theorem hasBS_append_left (l t : List Char) (h : hasBS (l ++ t) = false) :
    hasBS l = false := by
  induction l with
  | nil => rfl
  | cons c r ih =>
      rw [List.cons_append, hasBS] at h
      rcases Bool.or_eq_false_iff.mp h with ⟨hA, hB⟩
      rw [hasBS]
      apply Bool.or_eq_false_iff.mpr
      refine ⟨?_, ih hB⟩
      by_cases hc : c = '\\'
      · by_cases hr : r.head? = some 's'
        · exfalso
          have : (r ++ t).head? = some 's' := by
            cases r with
            | nil => exact absurd hr (by simp)
            | cons x y => simpa using hr
          simp [hc, this] at hA
        · simp [hr]
      · simp [hc]

/-- `hasBS` is inherited by suffixes of the `dropWhile` kind. -/
theorem hasBS_dropWhile (p : Char → Bool) (l : List Char)
    (h : hasBS l = false) : hasBS (l.dropWhile p) = false := by
  induction l with
  | nil => rfl
  | cons c r ih =>
      rw [hasBS] at h
      rcases Bool.or_eq_false_iff.mp h with ⟨-, hB⟩
      by_cases hp : p c = true
      · simp only [List.dropWhile, hp]
        exact ih hB
      · have hp2 : p c = false := by simpa using hp
        simp only [List.dropWhile, hp2]
        exact h

/-- The right strip is a prefix: the stripped tail is what completes it. -/
theorem rstrip_append (l : List Char) :
    l = rstripChars l ++ (l.reverse.takeWhile isSpaceChar).reverse := by
  conv_lhs => rw [← List.reverse_reverse l,
    ← List.takeWhile_append_dropWhile isSpaceChar l.reverse]
  rw [List.reverse_append]
  rfl

/-- `hasBS` is inherited by the right strip. -/
theorem hasBS_rstrip (l : List Char) (h : hasBS l = false) :
    hasBS (rstripChars l) = false := by
  apply hasBS_append_left (rstripChars l)
    ((l.reverse.takeWhile isSpaceChar).reverse)
  rw [← rstrip_append]
  exact h

/-- `hasBS` is inherited by the full strip. -/
theorem hasBS_strip (l : List Char) (h : hasBS l = false) :
    hasBS (stripChars l) = false :=
  hasBS_dropWhile isSpaceChar (rstripChars l) (hasBS_rstrip l h)

/-- `dropWhile` is idempotent. -/
theorem dropWhile_idem (p : Char → Bool) (l : List Char) :
    (l.dropWhile p).dropWhile p = l.dropWhile p := by
  induction l with
  | nil => rfl
  | cons c r ih =>
      by_cases hp : p c = true
      · simp only [List.dropWhile, hp]
        exact ih
      · have hp2 : p c = false := by simpa using hp
        simp only [List.dropWhile, hp2]

/-- The head surviving `dropWhile` does not satisfy the predicate. -/
theorem dropWhile_head_not (p : Char → Bool) (l : List Char) (c : Char)
    (h : (l.dropWhile p).head? = some c) : p c = false := by
  induction l with
  | nil => exact absurd h (by simp)
  | cons d r ih =>
      by_cases hp : p d = true
      · simp only [List.dropWhile, hp] at h
        exact ih h
      · have hp2 : p d = false := by simpa using hp
        simp only [List.dropWhile, hp2] at h
        have : d = c := by simpa using h
        subst this
        exact hp2

/-- The last character surviving a right strip is not whitespace. -/
theorem rstrip_getLast_not (l : List Char) (c : Char)
    (h : (rstripChars l).getLast? = some c) : isSpaceChar c = false := by
  rw [rstripChars, List.getLast?_reverse] at h
  exact dropWhile_head_not isSpaceChar l.reverse c h

/-- A list whose last character is not whitespace is unchanged by the right
strip. -/
theorem rstrip_eq_self (l : List Char) (c : Char) (hl : l.getLast? = some c)
    (hc : isSpaceChar c = false) : rstripChars l = l := by
  rw [rstripChars]
  have hh : l.reverse.head? = some c := by
    rw [List.head?_reverse]
    exact hl
  cases hrev : l.reverse with
  | nil => rw [hrev] at hh; exact absurd hh (by simp)
  | cons d t =>
      rw [hrev] at hh
      have : d = c := by simpa using hh
      subst this
      simp only [List.dropWhile, hc]
      rw [← hrev, List.reverse_reverse]

/-- A nonempty left strip preserves the last character. -/
theorem lstrip_getLast (l : List Char) (hne : lstripChars l ≠ []) :
    (lstripChars l).getLast? = l.getLast? := by
  unfold lstripChars at hne ⊢
  conv_rhs => rw [← List.takeWhile_append_dropWhile isSpaceChar l]
  rw [List.getLast?_append]
  cases hcase : (List.dropWhile isSpaceChar l).getLast? with
  | none =>
      exfalso
      apply hne
      by_contra hne2
      have := (List.getLast?_isSome (l := List.dropWhile isSpaceChar l)).mpr hne2
      rw [hcase] at this
      simp at this
  | some c => rfl

/-- A character of a left strip is a character of the list. -/
theorem mem_lstrip (l : List Char) (c : Char) (h : c ∈ lstripChars l) :
    c ∈ l := by
  have := List.takeWhile_append_dropWhile isSpaceChar l
  rw [← this]
  exact List.mem_append.mpr (Or.inr h)

/-- A character of a right strip is a character of the list. -/
theorem mem_rstrip (l : List Char) (c : Char) (h : c ∈ rstripChars l) :
    c ∈ l := by
  rw [rstripChars, List.mem_reverse] at h
  have h2 : c ∈ l.reverse := by
    rw [← List.takeWhile_append_dropWhile isSpaceChar l.reverse]
    exact List.mem_append.mpr (Or.inr h)
  rwa [List.mem_reverse] at h2

/-- The two-sided strip is idempotent. -/
theorem stripChars_idem (l : List Char) :
    stripChars (stripChars l) = stripChars l := by
  by_cases hu : stripChars l = []
  · rw [hu]
    rfl
  · have hlast : (stripChars l).getLast? = (rstripChars l).getLast? :=
      lstrip_getLast (rstripChars l) hu
    have hsome : ∃ c, (stripChars l).getLast? = some c := by
      have := List.getLast?_isSome (l := stripChars l)
      rcases hcase : (stripChars l).getLast? with - | c
      · rw [hcase] at this
        simp [hu] at this
      · exact ⟨c, rfl⟩
    obtain ⟨c, hc⟩ := hsome
    have hcws : isSpaceChar c = false := by
      apply rstrip_getLast_not l c
      rw [← hlast]
      exact hc
    have h1 : rstripChars (stripChars l) = stripChars l :=
      rstrip_eq_self (stripChars l) c hc hcws
    show lstripChars (rstripChars (stripChars l)) = stripChars l
    rw [h1]
    show List.dropWhile isSpaceChar (List.dropWhile isSpaceChar (rstripChars l)) =
      stripChars l
    rw [dropWhile_idem]
    rfl

/-- The final cleanup step of `_clean_hallucinations` is idempotent. -/
theorem cleanWS_fix (s : String) : cleanWS (cleanWS s) = cleanWS s := by
  apply String.ext
  show stripChars (subBSGo false (stripChars (subBSGo false s.data))) =
    stripChars (subBSGo false s.data)
  have h1 : hasBS (subBSGo false s.data) = false := subBSGo_hasBS s.data false
  have h2 : hasBS (stripChars (subBSGo false s.data)) = false :=
    hasBS_strip _ h1
  rw [subBSGo_id _ h2, stripChars_idem]

/-- The terminator-run splitter always produces at least one segment. -/
theorem splitTermGo_len_pos (l : List Char) :
    ∀ (b : Bool) (acc : List Char), 1 ≤ (splitTermGo b acc l).length := by
  induction l with
  | nil =>
      intro b acc
      cases b <;> simp [splitTermGo]
  | cons c rest ih =>
      intro b acc
      cases b with
      | false =>
          rw [splitTermGo]
          by_cases hc : isTermChar c = true
          · rw [if_pos hc]
            simp
          · rw [if_neg hc]
            exact ih false (c :: acc)
      | true =>
          rw [splitTermGo]
          by_cases hc : isTermChar c = true
          · rw [if_pos hc]
            exact ih true acc
          · rw [if_neg hc]
            exact ih false [c]

/-- Terminator-free text yields a single segment. -/
theorem splitTermGo_noterm (l : List Char)
    (h : ∀ c ∈ l, isTermChar c = false) :
    ∀ acc, (splitTermGo false acc l).length = 1 := by
  induction l with
  | nil => intro acc; rfl
  | cons c rest ih =>
      intro acc
      rw [splitTermGo, if_neg (by simp [h c (by simp)])]
      exact ih (fun x hx => h x (by simp [hx])) (c :: acc)

/-- A single-segment split means the text had no terminator at all. -/
theorem splitTermGo_one (l : List Char) :
    ∀ acc, (splitTermGo false acc l).length = 1 →
      ∀ c ∈ l, isTermChar c = false := by
  induction l with
  | nil => intro acc _ c hc; exact absurd hc (by simp)
  | cons d rest ih =>
      intro acc h c hc
      rw [splitTermGo] at h
      by_cases hd : isTermChar d = true
      · rw [if_pos hd] at h
        exfalso
        rw [List.length_cons] at h
        have := splitTermGo_len_pos rest true []
        omega
      · rw [if_neg hd] at h
        rcases List.mem_cons.mp hc with rfl | hc2
        · simpa using hd
        · exact ih (d :: acc) h c hc2

/-- The last character of a list is one of its members. -/
theorem mem_of_getLast (l : List Char) (c : Char) (h : l.getLast? = some c) :
    c ∈ l := by
  induction l with
  | nil => exact absurd h (by simp)
  | cons d rest ih =>
      cases rest with
      | nil =>
          have : d = c := by simpa using h
          subst this
          simp
      | cons e r2 =>
          rw [List.getLast?_cons_cons] at h
          exact List.mem_cons_of_mem d (ih h)

/-- Sentence terminators are not whitespace. -/
theorem term_not_space (c : Char) (h : isTermChar c = true) :
    isSpaceChar c = false := by
  have : (c = '.' ∨ c = '!') ∨ c = '?' := by
    rw [isTermChar] at h
    simpa [Bool.or_eq_true, decide_eq_true_eq] using h
  rcases this with (rfl | rfl) | rfl <;> decide

/-- The incomplete-sentence step always outputs one of the three endsOk
shapes: empty, terminator-final, or terminator-free. -/
theorem dropIncomplete_endsOk (t : String) : endsOk (dropIncomplete t) := by
  unfold dropIncomplete
  by_cases h1 : t.data = []
  · rw [if_pos h1]
    exact Or.inl h1
  · rw [if_neg h1]
    by_cases h2 : (match t.data.getLast? with
        | some c => isTermChar c
        | none => false) = true
    · rw [if_pos h2]
      cases hg : t.data.getLast? with
      | none =>
          rw [hg] at h2
          exact absurd h2 (by simp)
      | some c =>
          rw [hg] at h2
          exact Or.inr (Or.inl ⟨c, hg, h2⟩)
    · rw [if_neg h2]
      by_cases h3 : 1 < (splitTermRuns t).length
      · rw [if_pos h3]
        refine Or.inr (Or.inl ⟨'.', ?_, by decide⟩)
        show (pyJoin "." (splitTermRuns t).dropLast ++ ".").data.getLast? = _
        rw [strData_append]
        exact List.getLast?_concat _
      · rw [if_neg h3]
        refine Or.inr (Or.inr ?_)
        have hlen : (splitTermGo false [] t.data).length = 1 := by
          have hpos := splitTermGo_len_pos t.data false []
          have : (splitTermRuns t).length = (splitTermGo false [] t.data).length := by
            rw [splitTermRuns, List.length_map]
          omega
        exact splitTermGo_one t.data [] hlen

/-- On endsOk input, the incomplete-sentence step is the identity. -/
theorem dropIncomplete_id (v : String) (h : endsOk v) :
    dropIncomplete v = v := by
  unfold dropIncomplete
  rcases h with hempty | ⟨c, hlast, hterm⟩ | hnoterm
  · rw [if_pos hempty]
  · have hne : v.data ≠ [] := by
      intro habs
      rw [habs] at hlast
      exact absurd hlast (by simp)
    rw [if_neg hne]
    have hcond : (match v.data.getLast? with
        | some c => isTermChar c
        | none => false) = true := by
      rw [hlast]
      exact hterm
    rw [if_pos hcond]
  · by_cases hd : v.data = []
    · rw [if_pos hd]
    · rw [if_neg hd]
      by_cases h2 : (match v.data.getLast? with
          | some c => isTermChar c
          | none => false) = true
      · rw [if_pos h2]
      · rw [if_neg h2]
        have hlen : (splitTermRuns v).length = 1 := by
          rw [splitTermRuns, List.length_map]
          exact splitTermGo_noterm v.data hnoterm []
        rw [if_neg (by omega)]

/-- The whitespace-cleanup step preserves the endsOk shapes. -/
theorem cleanWS_endsOk (s : String) (h : endsOk s) : endsOk (cleanWS s) := by
  rcases h with hempty | ⟨c, hlast, hterm⟩ | hnoterm
  · refine Or.inl ?_
    show stripChars (subBSGo false s.data) = []
    rw [hempty]
    rfl
  · refine Or.inr (Or.inl ⟨c, ?_, hterm⟩)
    show (stripChars (subBSGo false s.data)).getLast? = some c
    have hsub : (subBSGo false s.data).getLast? = some c :=
      subBSGo_getLast s.data false c hlast hterm
    have hcws : isSpaceChar c = false := term_not_space c hterm
    have hr : rstripChars (subBSGo false s.data) = subBSGo false s.data :=
      rstrip_eq_self _ c hsub hcws
    rw [stripChars, hr]
    have hne : lstripChars (subBSGo false s.data) ≠ [] := by
      rw [lstripChars]
      intro habs
      have hall := List.dropWhile_eq_nil_iff.mp habs
      have hcmem : c ∈ subBSGo false s.data := mem_of_getLast _ c hsub
      have := hall c hcmem
      rw [hcws] at this
      exact absurd this (by simp)
    rw [lstrip_getLast _ hne]
    exact hsub
  · refine Or.inr (Or.inr ?_)
    intro c hc
    have hc1 : c ∈ rstripChars (subBSGo false s.data) := mem_lstrip _ c hc
    have hc2 : c ∈ subBSGo false s.data := mem_rstrip _ c hc1
    rcases subBSGo_mem s.data false c hc2 with hm | rfl
    · exact hnoterm c hm
    · decide

/-- The output of the hallucination filter is empty, terminator-final, or
terminator-free. -/
theorem cleanHallucinations_endsOk (t : String) :
    endsOk (cleanHallucinations t) :=
  cleanWS_endsOk _ (dropIncomplete_endsOk (cutTriggers t))

/-- Trigger-free text passes the cut step unchanged. -/
theorem cutTriggers_id (v : String) (h : (scanTriggers v).2 = none) :
    cutTriggers v = v := by
  unfold cutTriggers
  rw [h]

/-- C7 (counterexample): the filter is not idempotent. On
`"Here\\sis a cat."` (a literal backslash before `s`), the broken cleanup
regex rewrites `\\s` to a space, producing `"Here is a cat."` — which now
contains the drift trigger `"Here is"`, so a second filtering pass truncates
everything. -/
theorem c7_counterexample :
    cleanHallucinations "Here\\sis a cat." = "Here is a cat." ∧
    cleanHallucinations (cleanHallucinations "Here\\sis a cat.") = "" ∧
    cleanHallucinations (cleanHallucinations "Here\\sis a cat.") ≠
      cleanHallucinations "Here\\sis a cat." := by
  decide

/-- C7 (amended): the hallucination filter is idempotent on every input whose
filtered output contains no drift trigger (equivalently: unless filtering
itself manufactures a trigger occurrence, a second pass is the identity). -/
theorem c7_filter_idempotent_of_trigger_free (t : String)
    (h : (scanTriggers (cleanHallucinations t)).2 = none) :
    cleanHallucinations (cleanHallucinations t) = cleanHallucinations t := by
  have h1 : cutTriggers (cleanHallucinations t) = cleanHallucinations t :=
    cutTriggers_id _ h
  have h2 : dropIncomplete (cleanHallucinations t) = cleanHallucinations t :=
    dropIncomplete_id _ (cleanHallucinations_endsOk t)
  show cleanWS (dropIncomplete (cutTriggers (cleanHallucinations t))) = _
  rw [h1, h2]
  show cleanWS (cleanWS (dropIncomplete (cutTriggers t))) = _
  exact cleanWS_fix _

/-- Witness for C7's amended theorem at a concrete input. -/
theorem c7_filter_idempotent_witness :
    (scanTriggers (cleanHallucinations "All good.")).2 = none ∧
    cleanHallucinations (cleanHallucinations "All good.") =
      cleanHallucinations "All good." :=
  ⟨by decide, c7_filter_idempotent_of_trigger_free "All good." (by decide)⟩

/-- Witness for C2 at a concrete generation output containing a trigger. -/
theorem c2_earliest_trigger_cut_witness :
    (scanTriggers "x Note: y").2 = some "Note:" ∧
    cutTriggers "x Note: y" =
      pyStrip (strTake "x Note: y" (scanTriggers "x Note: y").1) :=
  ⟨by decide,
    ((c2_earliest_trigger_cut "x Note: y").2.1 "Note:" (by decide)).2.2⟩

/-- The dedup-merge of one bucket: its finset is the union, and it is
duplicate-free. -/
theorem pySetList_spec (a b : List String) :
    (pySetList (a ++ b)).toFinset = a.toFinset ∪ b.toFinset ∧
      (pySetList (a ++ b)).Nodup := by
  constructor
  · apply Finset.ext
    intro x
    simp [pySetList, List.mem_toFinset, List.mem_dedup, List.mem_append,
      Finset.mem_union]
  · exact List.nodup_dedup _

/-- C10: in `generate_document`, the StructuredInfo handed to the assembler
is, bucket by bucket, the duplicate-free union (as a set) of the sentences
extracted from the generated (or pass-through) summary and the sentences
extracted from the original text. Python realises this with an unordered-set
conversion, so only membership and duplicate-freeness are guaranteed, not
insertion order. -/
theorem c10_structured_info_merge (gen : String → Nat → Nat → String)
    (text : String) :
    ((mergedInfo gen text).requirements.toFinset =
        (extractStructuredInfo (genDocSummary gen text)).requirements.toFinset ∪
          (extractStructuredInfo text).requirements.toFinset ∧
      (mergedInfo gen text).requirements.Nodup) ∧
    ((mergedInfo gen text).decisions.toFinset =
        (extractStructuredInfo (genDocSummary gen text)).decisions.toFinset ∪
          (extractStructuredInfo text).decisions.toFinset ∧
      (mergedInfo gen text).decisions.Nodup) ∧
    ((mergedInfo gen text).action_items.toFinset =
        (extractStructuredInfo (genDocSummary gen text)).action_items.toFinset ∪
          (extractStructuredInfo text).action_items.toFinset ∧
      (mergedInfo gen text).action_items.Nodup) ∧
    ((mergedInfo gen text).timeline.toFinset =
        (extractStructuredInfo (genDocSummary gen text)).timeline.toFinset ∪
          (extractStructuredInfo text).timeline.toFinset ∧
      (mergedInfo gen text).timeline.Nodup) ∧
    ((mergedInfo gen text).budget.toFinset =
        (extractStructuredInfo (genDocSummary gen text)).budget.toFinset ∪
          (extractStructuredInfo text).budget.toFinset ∧
      (mergedInfo gen text).budget.Nodup) ∧
    ((mergedInfo gen text).risks.toFinset =
        (extractStructuredInfo (genDocSummary gen text)).risks.toFinset ∪
          (extractStructuredInfo text).risks.toFinset ∧
      (mergedInfo gen text).risks.Nodup) ∧
    ((mergedInfo gen text).technical.toFinset =
        (extractStructuredInfo (genDocSummary gen text)).technical.toFinset ∪
          (extractStructuredInfo text).technical.toFinset ∧
      (mergedInfo gen text).technical.Nodup) ∧
    ((mergedInfo gen text).deliverables.toFinset =
        (extractStructuredInfo (genDocSummary gen text)).deliverables.toFinset ∪
          (extractStructuredInfo text).deliverables.toFinset ∧
      (mergedInfo gen text).deliverables.Nodup) ∧
    ((mergedInfo gen text).stakeholders.toFinset =
        (extractStructuredInfo (genDocSummary gen text)).stakeholders.toFinset ∪
          (extractStructuredInfo text).stakeholders.toFinset ∧
      (mergedInfo gen text).stakeholders.Nodup) :=
  ⟨pySetList_spec _ _, pySetList_spec _ _, pySetList_spec _ _,
    pySetList_spec _ _, pySetList_spec _ _, pySetList_spec _ _,
    pySetList_spec _ _, pySetList_spec _ _, pySetList_spec _ _⟩

/-- A prefix stays a prefix when the list is extended on the right. -/
theorem isPrefixOf_ext (a : List Char) :
    ∀ b t, a.isPrefixOf b = true → a.isPrefixOf (b ++ t) = true := by
  induction a with
  | nil => intro b t _; exact List.isPrefixOf_nil_left
  | cons c a2 ih =>
      intro b t h
      cases b with
      | nil => exact absurd h (by simp [List.isPrefixOf])
      | cons d b2 =>
          show (c :: a2).isPrefixOf (d :: (b2 ++ t)) = true
          rw [List.isPrefixOf] at h ⊢
          rcases Bool.and_eq_true_iff.mp h with ⟨h1, h2⟩
          exact Bool.and_eq_true_iff.mpr ⟨h1, ih b2 t h2⟩

/-- An occurrence makes `find` succeed. -/
theorem pyFindAux_isSome_of_occ (n l : List Char) (k : Nat)
    (h : n.isPrefixOf (l.drop k) = true) : (pyFindAux n l 0).isSome = true := by
  obtain ⟨p, hp, -⟩ := pyFindAux_min n l 0 k h
  rw [hp]
  rfl

/-- A successful `find` yields an occurrence. -/
theorem pyFindAux_occ_of_isSome (n l : List Char)
    (h : (pyFindAux n l 0).isSome = true) :
    ∃ k, n.isPrefixOf (l.drop k) = true := by
  cases hf : pyFindAux n l 0 with
  | none => rw [hf] at h; exact absurd h (by simp)
  | some p =>
      have := pyFindAux_sound n l 0 p hf
      exact ⟨p, by simpa using this⟩

/-- Substring containment extends to the right of an append. -/
theorem contains_mono_right (a b pat : String)
    (h : strContainsB b pat = true) : strContainsB (a ++ b) pat = true := by
  rw [strContainsB, pyFind] at h ⊢
  obtain ⟨k, hk⟩ := pyFindAux_occ_of_isSome _ _ h
  apply pyFindAux_isSome_of_occ pat.data (a ++ b).data (a.data.length + k)
  rw [strData_append, List.drop_append]
  exact hk

/-- Substring containment extends to the left of an append. -/
theorem contains_mono_left (a b pat : String)
    (h : strContainsB a pat = true) : strContainsB (a ++ b) pat = true := by
  rw [strContainsB, pyFind] at h ⊢
  obtain ⟨k, hk⟩ := pyFindAux_occ_of_isSome _ _ h
  by_cases hkle : k ≤ a.data.length
  · apply pyFindAux_isSome_of_occ pat.data (a ++ b).data k
    rw [strData_append, List.drop_append_of_le_length hkle]
    exact isPrefixOf_ext _ _ _ hk
  · have hdrop : a.data.drop k = [] := List.drop_eq_nil_of_le (by omega)
    rw [hdrop] at hk
    have hpat : pat.data = [] := by
      cases hp : pat.data with
      | nil => rfl
      | cons c t => rw [hp] at hk; exact absurd hk (by simp [List.isPrefixOf])
    apply pyFindAux_isSome_of_occ pat.data (a ++ b).data 0
    rw [hpat]
    exact List.isPrefixOf_nil_left

/-- C9: for every summary text (and every current date/timestamp), assembling
a BRD with empty metadata and empty structured-info buckets succeeds and
produces a non-empty document containing all 13 numbered BRD section headers,
and every empty bucket renders its generic fallback text instead of an empty
section. -/
theorem c9_brd_renders_with_empty_inputs (s today nowTs : String) :
    generateBrd s emptyInfo [] today nowTs ≠ "" ∧
    strContainsB (generateBrd s emptyInfo [] today nowTs)
      "1. EXECUTIVE SUMMARY" = true ∧
    strContainsB (generateBrd s emptyInfo [] today nowTs)
      "2. BUSINESS OBJECTIVES" = true ∧
    strContainsB (generateBrd s emptyInfo [] today nowTs)
      "3. BUSINESS REQUIREMENTS" = true ∧
    strContainsB (generateBrd s emptyInfo [] today nowTs)
      "4. FUNCTIONAL REQUIREMENTS" = true ∧
    strContainsB (generateBrd s emptyInfo [] today nowTs)
      "5. STAKEHOLDERS" = true ∧
    strContainsB (generateBrd s emptyInfo [] today nowTs)
      "6. KEY DECISIONS" = true ∧
    strContainsB (generateBrd s emptyInfo [] today nowTs)
      "7. SCOPE" = true ∧
    strContainsB (generateBrd s emptyInfo [] today nowTs)
      "8. TIMELINE & MILESTONES" = true ∧
    strContainsB (generateBrd s emptyInfo [] today nowTs)
      "9. BUDGET & RESOURCES" = true ∧
    strContainsB (generateBrd s emptyInfo [] today nowTs)
      "10. RISKS & ASSUMPTIONS" = true ∧
    strContainsB (generateBrd s emptyInfo [] today nowTs)
      "11. DEPENDENCIES" = true ∧
    strContainsB (generateBrd s emptyInfo [] today nowTs)
      "12. SUCCESS CRITERIA" = true ∧
    strContainsB (generateBrd s emptyInfo [] today nowTs)
      "13. APPROVAL" = true ∧
    strContainsB (generateBrd s emptyInfo [] today nowTs)
      "Business objectives to be refined based on stakeholder review." = true ∧
    strContainsB (generateBrd s emptyInfo [] today nowTs)
      "Business requirements extracted from executive summary above." = true ∧
    strContainsB (generateBrd s emptyInfo [] today nowTs)
      "Functional requirements to be detailed in technical specification." = true ∧
    strContainsB (generateBrd s emptyInfo [] today nowTs)
      "Primary Stakeholders:" = true ∧
    strContainsB (generateBrd s emptyInfo [] today nowTs)
      "Key decisions documented in executive summary." = true ∧
    strContainsB (generateBrd s emptyInfo [] today nowTs)
      "• As defined in requirements above" = true ∧
    strContainsB (generateBrd s emptyInfo [] today nowTs)
      "Project Timeline:" = true ∧
    strContainsB (generateBrd s emptyInfo [] today nowTs)
      "Estimated Budget: To be determined" = true ∧
    strContainsB (generateBrd s emptyInfo [] today nowTs)
      "Risk assessment to be conducted during project planning." = true := by
  have h0 : strContainsB (generateBrd s emptyInfo [] today nowTs)
      "1. EXECUTIVE SUMMARY" = true := by
    repeat first
      | (apply contains_mono_right ; decide)
      | apply contains_mono_left
  have h1 : strContainsB (generateBrd s emptyInfo [] today nowTs)
      "2. BUSINESS OBJECTIVES" = true := by
    repeat first
      | (apply contains_mono_right ; decide)
      | apply contains_mono_left
  have h2 : strContainsB (generateBrd s emptyInfo [] today nowTs)
      "3. BUSINESS REQUIREMENTS" = true := by
    repeat first
      | (apply contains_mono_right ; decide)
      | apply contains_mono_left
  have h3 : strContainsB (generateBrd s emptyInfo [] today nowTs)
      "4. FUNCTIONAL REQUIREMENTS" = true := by
    repeat first
      | (apply contains_mono_right ; decide)
      | apply contains_mono_left
  have h4 : strContainsB (generateBrd s emptyInfo [] today nowTs)
      "5. STAKEHOLDERS" = true := by
    repeat first
      | (apply contains_mono_right ; decide)
      | apply contains_mono_left
  have h5 : strContainsB (generateBrd s emptyInfo [] today nowTs)
      "6. KEY DECISIONS" = true := by
    repeat first
      | (apply contains_mono_right ; decide)
      | apply contains_mono_left
  have h6 : strContainsB (generateBrd s emptyInfo [] today nowTs)
      "7. SCOPE" = true := by
    repeat first
      | (apply contains_mono_right ; decide)
      | apply contains_mono_left
  have h7 : strContainsB (generateBrd s emptyInfo [] today nowTs)
      "8. TIMELINE & MILESTONES" = true := by
    repeat first
      | (apply contains_mono_right ; decide)
      | apply contains_mono_left
  have h8 : strContainsB (generateBrd s emptyInfo [] today nowTs)
      "9. BUDGET & RESOURCES" = true := by
    repeat first
      | (apply contains_mono_right ; decide)
      | apply contains_mono_left
  have h9 : strContainsB (generateBrd s emptyInfo [] today nowTs)
      "10. RISKS & ASSUMPTIONS" = true := by
    repeat first
      | (apply contains_mono_right ; decide)
      | apply contains_mono_left
  have h10 : strContainsB (generateBrd s emptyInfo [] today nowTs)
      "11. DEPENDENCIES" = true := by
    repeat first
      | (apply contains_mono_right ; decide)
      | apply contains_mono_left
  have h11 : strContainsB (generateBrd s emptyInfo [] today nowTs)
      "12. SUCCESS CRITERIA" = true := by
    repeat first
      | (apply contains_mono_right ; decide)
      | apply contains_mono_left
  have h12 : strContainsB (generateBrd s emptyInfo [] today nowTs)
      "13. APPROVAL" = true := by
    repeat first
      | (apply contains_mono_right ; decide)
      | apply contains_mono_left
  have h13 : strContainsB (generateBrd s emptyInfo [] today nowTs)
      "Business objectives to be refined based on stakeholder review." = true := by
    repeat first
      | (apply contains_mono_right ; decide)
      | apply contains_mono_left
  have h14 : strContainsB (generateBrd s emptyInfo [] today nowTs)
      "Business requirements extracted from executive summary above." = true := by
    repeat first
      | (apply contains_mono_right ; decide)
      | apply contains_mono_left
  have h15 : strContainsB (generateBrd s emptyInfo [] today nowTs)
      "Functional requirements to be detailed in technical specification." = true := by
    repeat first
      | (apply contains_mono_right ; decide)
      | apply contains_mono_left
  have h16 : strContainsB (generateBrd s emptyInfo [] today nowTs)
      "Primary Stakeholders:" = true := by
    repeat first
      | (apply contains_mono_right ; decide)
      | apply contains_mono_left
  have h17 : strContainsB (generateBrd s emptyInfo [] today nowTs)
      "Key decisions documented in executive summary." = true := by
    repeat first
      | (apply contains_mono_right ; decide)
      | apply contains_mono_left
  have h18 : strContainsB (generateBrd s emptyInfo [] today nowTs)
      "• As defined in requirements above" = true := by
    repeat first
      | (apply contains_mono_right ; decide)
      | apply contains_mono_left
  have h19 : strContainsB (generateBrd s emptyInfo [] today nowTs)
      "Project Timeline:" = true := by
    repeat first
      | (apply contains_mono_right ; decide)
      | apply contains_mono_left
  have h20 : strContainsB (generateBrd s emptyInfo [] today nowTs)
      "Estimated Budget: To be determined" = true := by
    repeat first
      | (apply contains_mono_right ; decide)
      | apply contains_mono_left
  have h21 : strContainsB (generateBrd s emptyInfo [] today nowTs)
      "Risk assessment to be conducted during project planning." = true := by
    repeat first
      | (apply contains_mono_right ; decide)
      | apply contains_mono_left
  refine ⟨?_, h0, h1, h2, h3, h4, h5, h6, h7, h8, h9, h10, h11, h12, h13, h14, h15, h16, h17, h18, h19, h20, h21⟩
  intro habs
  rw [habs] at h0
  exact absurd h0 (by decide)

end ReqGen
